import Mathlib

/-!
Verification of the Poker repository (GameFile.py, SpriteFile.py, GameTester.py)
against its natural-language specification.

Shallow embedding conventions:
* A card's rank is its index in `aList = Deck.TYPES[1:] + ["Ace"]`, i.e.
  0 = Two, 1 = Three, ..., 3 = Five, 4 = Six, 5 = Seven, ..., 8 = Ten,
  9 = Jack, 10 = Queen, 11 = King, 12 = Ace.  Every rank comparison in the
  source is made through this list, so this index is the faithful encoding of
  the rank word found in the card's name string `"<Rank> of <Suit>"`.
* A card's suit is its index in `SUITS = [Clubs, Diamonds, Hearts, Spades]`.
* The placeholder cards `Card("Empty")` / `Card("Unknown")` that populate the
  display slots before community cards are revealed are modelled by `none` in
  `PCard := Option Card` ("Empty"/"Unknown" contain no rank word and no
  capital letter in {C, D, H, S}, which is all the evaluator ever looks at).
* Money amounts are rationals: Python's `/` is true division and every game
  amount is a small dyadic rational, represented exactly.
* A Python runtime error (list index out of range, drawing from an empty
  deck, `aList.index(None)`) is modelled by `Option`: the operation returns
  `none` where the source process would die.
-/

namespace Poker

/-- A playing card, as rank/suit parsed from the source's name string
`"<Rank> of <Suit>"` (`SpriteFile.Card.getType` / `getSuit`). -/
structure Card where
  rank : Fin 13
  suit : Fin 4
deriving DecidableEq, Repr

/-- A card slot: `none` is the `Card("Empty")` / `Card("Unknown")` placeholder. -/
abbrev PCard := Option Card

/-! ## The deck (SpriteFile.py, class Deck) -/

structure Deck where
  cardsInDeck : List Card
  cardsOutOfDeck : List Card
deriving DecidableEq, Repr

/-- The 52 cards of one deck in construction order: `for aType in TYPES`
(Ace, Two, ..., King) `for aSuit in SUITS`.  In the aList encoding the TYPES
order is rank 12 (Ace) followed by ranks 0..11. -/
def singleDeck : List Card :=
  ([12, 0, 1, 2, 3, 4, 5, 6, 7, 8, 9, 10, 11] : List (Fin 13)).flatMap
    (fun r => (List.finRange 4).map (fun s => ⟨r, s⟩))

/-- `Deck.__init__(deckMultiple)`: `deckMultiple` copies of the 52-card set,
all in-deck. -/
def Deck.new (deckMultiple : Nat) : Deck :=
  { cardsInDeck := (List.replicate deckMultiple singleDeck).flatten
    cardsOutOfDeck := [] }

/-- One step of `Deck.shuffle`: `aCard = list.pop(num); list.insert(0, aCard)`.
`randint(i, len-1)` always yields an in-range index; an out-of-range index
(impossible at runtime) is modelled as a no-op. -/
def shuffleStep (l : List Card) (num : Nat) : List Card :=
  match l.get? num with
  | some c => c :: l.eraseIdx num
  | none => l

/-- `Deck.shuffle`, with the stream of `randint(i, len(list)-1)` samples made
explicit as `choices` (`choices.getD i 0` is the value sampled at loop step `i`). -/
def Deck.shuffle (d : Deck) (choices : List Nat) : Deck :=
  let shuffled := (List.range d.cardsInDeck.length).foldl
    (fun l i => shuffleStep l (choices.getD i 0)) d.cardsInDeck
  { d with cardsInDeck := shuffled }

/-- `Deck.getCardFromDeck`: pop the last card of the in-deck list and append
it to the out-of-deck list; `none` when the deck is empty (the source calls
`exit(...)` there). -/
def Deck.getCardFromDeck (d : Deck) : Option (Card × Deck) :=
  match d.cardsInDeck.getLast? with
  | none => none
  | some c => some (c,
      { cardsInDeck := d.cardsInDeck.dropLast
        cardsOutOfDeck := d.cardsOutOfDeck ++ [c] })

/-- `Deck.addAllCardsBackIntoDeck`. -/
def Deck.addAllCardsBackIntoDeck (d : Deck) : Deck :=
  { cardsInDeck := d.cardsOutOfDeck ++ d.cardsInDeck, cardsOutOfDeck := [] }

/-- Remove the first card whose type (rank word, `getType`) matches `r`:
the inner loop of `addSpecificCardsBackIntoDeck` with its `break`. -/
def removeFirstByType (r : Fin 13) : List Card → List Card
  | [] => []
  | c :: l => if c.rank = r then l else c :: removeFirstByType r l

/-- `Deck.__isInDeck`: matching is by `getType`, i.e. by rank word only. -/
def isInDeckByType (c : Card) (l : List Card) : Bool :=
  l.any (fun x => x.rank = c.rank)

/-- The main loop of `addSpecificCardsBackIntoDeck`: the accumulator carries
(cards kept so far, current out-of-deck list). -/
def addSpecLoop (cardList : List Card) (acc : List Card × List Card) :
    List Card × List Card :=
  cardList.foldl
    (fun p c =>
      if isInDeckByType c p.2 then (p.1 ++ [c], removeFirstByType c.rank p.2)
      else p)
    acc

/-- `Deck.addSpecificCardsBackIntoDeck`: cards with no type-match in the
out-of-deck list are replaced by `'0'` and removed; each remaining card
removes the first type-matching card from the out-of-deck list; the filtered
card list is prepended (added to the bottom of) the in-deck list. -/
def Deck.addSpecificCardsBackIntoDeck (d : Deck) (cardList : List Card) : Deck :=
  let r := addSpecLoop cardList ([], d.cardsOutOfDeck)
  { cardsInDeck := r.1 ++ d.cardsInDeck, cardsOutOfDeck := r.2 }

/-- The deck operations named by the spec (§4.1 / §8). -/
inductive DeckOp
  | shuffle (choices : List Nat)
  | draw
  | returnAll
  | returnSpecific (cards : List Card)

def Deck.applyOp (d : Deck) : DeckOp → Option Deck
  | .shuffle ch => some (d.shuffle ch)
  | .draw => (d.getCardFromDeck).map (·.2)
  | .returnAll => some d.addAllCardsBackIntoDeck
  | .returnSpecific cs => some (d.addSpecificCardsBackIntoDeck cs)

def Deck.applyOps : Deck → List DeckOp → Option Deck
  | d, [] => some d
  | d, op :: ops => (d.applyOp op).bind (fun d' => d'.applyOps ops)

/-- in-deck card count plus out-of-deck card count. -/
def Deck.totalCount (d : Deck) : Nat :=
  d.cardsInDeck.length + d.cardsOutOfDeck.length

lemma shuffleStep_length (l : List Card) (num : Nat) :
    (shuffleStep l num).length = l.length := by
  unfold shuffleStep
  cases h : l.get? num with
  | none => rfl
  | some c =>
    have hlt : num < l.length := by
      by_contra hge
      rw [List.get?_eq_none.2 (Nat.le_of_not_lt hge)] at h
      exact Option.noConfusion h
    simp [List.length_eraseIdx, hlt, Nat.succ_pred_eq_of_pos (Nat.lt_of_le_of_lt (Nat.zero_le _) hlt)]
    omega

lemma foldl_shuffleStep_length (ch : List Nat) :
    ∀ (idxs : List Nat) (l : List Card),
      (idxs.foldl (fun l i => shuffleStep l (ch.getD i 0)) l).length = l.length
  | [], _ => rfl
  | i :: is, l => by
    simp only [List.foldl_cons]
    rw [foldl_shuffleStep_length ch is, shuffleStep_length]

lemma Deck.shuffle_length (d : Deck) (ch : List Nat) :
    (d.shuffle ch).cardsInDeck.length = d.cardsInDeck.length ∧
      (d.shuffle ch).cardsOutOfDeck = d.cardsOutOfDeck :=
  ⟨foldl_shuffleStep_length ch _ _, rfl⟩

lemma removeFirstByType_length {r : Fin 13} {l : List Card}
    (h : l.any (fun x => x.rank = r)) :
    (removeFirstByType r l).length + 1 = l.length := by
  induction l with
  | nil => simp at h
  | cons c cs ih =>
    by_cases hc : c.rank = r
    · simp [removeFirstByType, hc]
    · simp only [List.any_cons, Bool.or_eq_true, decide_eq_true_eq] at h
      rcases h with h | h
      · exact absurd h hc
      · simp [removeFirstByType, hc, ih h]

lemma addSpecLoop_count : ∀ (cs : List Card) (acc : List Card × List Card),
    (addSpecLoop cs acc).1.length + (addSpecLoop cs acc).2.length =
      acc.1.length + acc.2.length
  | [], _ => rfl
  | c :: rest, acc => by
    show (addSpecLoop rest _).1.length + (addSpecLoop rest _).2.length = _
    rw [addSpecLoop_count rest]
    by_cases hin : isInDeckByType c acc.2
    · simp only [hin, if_true, List.length_append, List.length_cons,
        List.length_nil]
      have := removeFirstByType_length (r := c.rank) (l := acc.2) hin
      omega
    · simp [hin]

lemma addSpecific_count (d : Deck) (cs : List Card) :
    (d.addSpecificCardsBackIntoDeck cs).totalCount = d.totalCount := by
  have h := addSpecLoop_count cs ([], d.cardsOutOfDeck)
  simp only [List.length_nil, Nat.zero_add] at h
  unfold Deck.addSpecificCardsBackIntoDeck Deck.totalCount
  simp only [List.length_append]
  omega

lemma applyOp_count {d d' : Deck} {op : DeckOp} (h : d.applyOp op = some d') :
    d'.totalCount = d.totalCount := by
  cases op with
  | shuffle ch =>
    simp only [Deck.applyOp, Option.some.injEq] at h
    subst h
    have := d.shuffle_length ch
    unfold Deck.totalCount
    rw [this.1, this.2]
  | draw =>
    simp only [Deck.applyOp, Option.map_eq_some'] at h
    obtain ⟨⟨c, d₂⟩, hget, hd⟩ := h
    subst hd
    unfold Deck.getCardFromDeck at hget
    cases hlast : d.cardsInDeck.getLast? with
    | none => rw [hlast] at hget; exact Option.noConfusion hget
    | some c₀ =>
      rw [hlast] at hget
      simp only [Option.some.injEq, Prod.mk.injEq] at hget
      obtain ⟨-, hd⟩ := hget
      subst hd
      have hne : d.cardsInDeck ≠ [] := by
        intro hnil; rw [hnil] at hlast; exact Option.noConfusion hlast
      unfold Deck.totalCount
      simp only [List.length_dropLast, List.length_append, List.length_cons,
        List.length_nil]
      have : 0 < d.cardsInDeck.length := List.length_pos.2 hne
      omega
  | returnAll =>
    simp only [Deck.applyOp, Option.some.injEq] at h
    subst h
    unfold Deck.totalCount Deck.addAllCardsBackIntoDeck
    simp [Nat.add_comm]
  | returnSpecific cs =>
    simp only [Deck.applyOp, Option.some.injEq] at h
    subst h
    exact addSpecific_count d cs

lemma applyOps_count : ∀ (ops : List DeckOp) (d d' : Deck),
    d.applyOps ops = some d' → d'.totalCount = d.totalCount
  | [], d, d', h => by
    simp only [Deck.applyOps, Option.some.injEq] at h
    subst h; rfl
  | op :: ops, d, d', h => by
    simp only [Deck.applyOps, Option.bind_eq_some] at h
    obtain ⟨d₁, h₁, h₂⟩ := h
    rw [applyOps_count ops d₁ d' h₂, applyOp_count h₁]

lemma singleDeck_length : singleDeck.length = 52 := by decide

lemma Deck.new_count (N : Nat) : (Deck.new N).totalCount = N * 52 := by
  unfold Deck.new Deck.totalCount
  simp only [List.length_nil, Nat.add_zero]
  induction N with
  | zero => rfl
  | succ n ih =>
    simp only [List.replicate_succ, List.flatten_cons, List.length_append, ih,
      singleDeck_length]
    omega

/-- C5: for every deck built with multiple `N` and every sequence of deck
operations (shuffle / draw / return-all / return-specific) that completes
without a runtime error, the number of in-deck cards plus the number of
out-of-deck cards is `N * 52`. -/
theorem deck_count_invariant (N : Nat) (ops : List DeckOp) (d : Deck)
    (h : (Deck.new N).applyOps ops = some d) :
    d.totalCount = N * 52 := by
  rw [applyOps_count ops _ _ h, Deck.new_count]

/-- A concrete deck-operation sequence and its result, used by the witness. -/
def deckOpsSample : List DeckOp :=
  [.shuffle [3, 1, 2], .draw, .draw, .returnAll, .returnSpecific [⟨12, 0⟩]]

def deckSampleResult : Deck :=
  ((Deck.new 1).applyOps deckOpsSample).getD (Deck.new 0)

/-- Witness for `deck_count_invariant` at a concrete input: a fresh 1-deck,
shuffled, two draws, return-all, then a specific return. -/
theorem deck_count_invariant_witness :
    (Deck.new 1).applyOps deckOpsSample = some deckSampleResult ∧
      deckSampleResult.totalCount = 1 * 52 :=
  ⟨by decide, deck_count_invariant 1 deckOpsSample deckSampleResult (by decide)⟩

/-! ## Hand evaluation (GameFile.py, PokerGame)

The evaluator works on the card name strings `"<Rank> of <Suit>"`.  The
embedding records the parsed content of those strings:
* `name.split()[0]` is the rank word; comparing it with `aList[k]` is
  `wordMatches c k` (the placeholder name "Empty"/"Unknown" matches no rank
  word);
* the scan for capital letters in {C, D, H, S} in `isFlush` sees, in order,
  the letter 'S' of the rank words "Six"/"Seven" (the only rank words
  containing such a capital) and then the suit initial; letters are encoded
  as suit indices ('C' = 0, 'D' = 1, 'H' = 2, 'S' = 3, so the rank-word 'S'
  is index 3, the same letter as Spades); "Empty"/"Unknown" contain none;
* the substring test `cardRanking[i] in name` of `getHighCard` holds exactly
  when the card's rank word is `cardRanking[i]`, since no rank word occurs
  inside any other card name.
-/

/-- `aList.index` of the card's rank word (`0` when nothing matches, as for
the loop variable left at `0` on the "Empty" placeholder). -/
def rankVal (c : PCard) : Nat :=
  match c with
  | some c => c.rank.val
  | none => 0

/-- Does `name.split()[0] == aList[k]` hold? -/
def wordMatches (c : PCard) (k : Nat) : Bool :=
  match c with
  | some c => c.rank.val = k
  | none => false

/-- The capital letters in {C, D, H, S} of the card's name, in order of
occurrence, encoded as suit indices. -/
def capList (c : PCard) : List (Fin 4) :=
  match c with
  | none => []
  | some c => (if c.rank.val = 4 ∨ c.rank.val = 5 then [3] else []) ++ [c.suit]

/-- `PokerGame.isFlush`: the first capital of the first card (or the
untouched initial `'o'`, i.e. `none`) must equal every capital of every
later card. -/
def isFlushB (l : List PCard) : Bool :=
  match l with
  | [] => true
  | c0 :: rest =>
    let letter := (capList c0).head?
    rest.all (fun c => (capList c).all (fun x => some x = letter))

/-- Stable insertion keeping ascending `rankVal` order (new card goes after
cards of equal value). -/
def insertByVal (c : PCard) : List PCard → List PCard
  | [] => [c]
  | b :: l => if rankVal b ≤ rankVal c then b :: insertByVal c l else c :: b :: l

/-- The exchange sort at the start of `isStraight`, which orders the cards
ascending by `aList` rank value.  The source's sort is stable wherever
stability is observable (ties between distinct rank words only happen at
value 0, where no strictly smaller element exists to leapfrog them), so a
stable insertion sort computes the same name sequence. -/
def sortByVal (l : List PCard) : List PCard :=
  l.foldl (fun acc c => insertByVal c acc) []

/-- The final comparison loop of `isStraight` from list position 1 onwards:
at each step the source first indexes `aList[startListIndex + i]` — an
`IndexError` (modelled `none`) when that exceeds 12 — and then compares it
with the card's rank word. -/
def straightAux : List PCard → Nat → Option Bool
  | [], _ => some true
  | c :: r, k =>
    if 13 ≤ k then none
    else if wordMatches c k then straightAux r (k + 1) else some false

/-- `PokerGame.isStraight`.  `none` models a Python `IndexError`: either the
input has fewer than 5 cards (`temp[4]` fails) or the comparison loop runs
past the end of `aList`. -/
def isStraightM (l : List PCard) : Option Bool :=
  if 5 ≤ l.length then
    let t := sortByVal l
    let t2 :=
      if wordMatches (t.getD 4 none) 12 ∧ wordMatches (t.getD 0 none) 0 then
        t.eraseIdx 4
      else t
    let start := rankVal (t2.headD none)
    straightAux t2.tail (start + 1)
  else none

/-- `occurrences[k]` of `isXofAKind` / `isTwoPairs`. -/
def countOcc (l : List PCard) (k : Nat) : Nat :=
  l.countP (fun c => wordMatches c k)

/-- `PokerGame.isXofAKind` (the guard `X < 0 or X > 4` never fires: the only
call sites use X = 2, 3, 4). -/
def isXofAKindB (l : List PCard) (x : Nat) : Bool :=
  (List.range 13).any (fun k => countOcc l k = x)

/-- `PokerGame.isTwoPairs`. -/
def isTwoPairsB (l : List PCard) : Bool :=
  ((List.range 13).countP (fun k => countOcc l k = 2)) = 2

/-- One marking pass of `isRoyalFlush`: mark (`none`) the first unmarked
`needed` entry matching the card's rank word. -/
def markOne (c : PCard) : List (Option Nat) → List (Option Nat)
  | [] => []
  | x :: r =>
    match x with
    | some k => if wordMatches c k then none :: r else x :: markOne c r
    | none => none :: markOne c r

/-- `Deck.TYPES[9:] + ["Ace"]` = [Ten, Jack, Queen, King, Ace] as rank values. -/
def royalNeeded : List Nat := [8, 9, 10, 11, 12]

/-- `PokerGame.isRoyalFlush`: a flush whose cards mark every needed rank. -/
def isRoyalFlushB (l : List PCard) : Bool :=
  isFlushB l &&
    (l.foldl (fun nd c => markOne c nd) (royalNeeded.map some)).all Option.isNone

/-- `PokerGame.isStraightFlush` (`and` short-circuits, so `isStraight` — and
its possible `IndexError` — is only reached on a flush). -/
def isStraightFlushM (l : List PCard) : Option Bool :=
  if isFlushB l then isStraightM l else some false

/-- The category test at position `i` of the `functions` list of `checkHand`
(strongest first). -/
def predAt (i : Nat) (t : List PCard) : Option Bool :=
  match i with
  | 0 => some (isRoyalFlushB t)
  | 1 => isStraightFlushM t
  | 2 => some (isXofAKindB t 4)
  | 3 => some (isXofAKindB t 3 && isXofAKindB t 2)
  | 4 => some (isFlushB t)
  | 5 => isStraightM t
  | 6 => some (isXofAKindB t 3)
  | 7 => some (isTwoPairsB t)
  | 8 => some (isXofAKindB t 2)
  | _ => some false

/-- Python slice `l[s:e]`. -/
def pySlice {α : Type} (l : List α) (s e : Nat) : List α :=
  (l.drop s).take (e - s)

/-- The circular windows of width `w` generated by `checkHand`'s slicing:
window `j` is `l[j:j+w]`, wrapping as `l[j:] + l[:j+w-len(l)]` when
`j + w >= len(l) + 1`. -/
def rotWindows {α : Type} (l : List α) (w : Nat) : List (List α) :=
  (List.range l.length).map (fun j =>
    if l.length + 1 ≤ j + w then l.drop j ++ l.take (j + w - l.length)
    else pySlice l j (j + w))

/-- All 5-card lists tested by `checkHand`, in test order: every 5-window of
every 6-window of the 7 cards. -/
def testedLists {α : Type} (cards : List α) : List (List α) :=
  (rotWindows cards 6).flatMap (fun w6 => rotWindows w6 5)

/-- Scan one category over the tested lists in order: `none` once a test
raises, `some true` on the first match. -/
def scanCat (i : Nat) : List (List PCard) → Option Bool
  | [] => some false
  | t :: r =>
    match predAt i t with
    | none => none
    | some true => some true
    | some false => scanCat i r

/-- `PokerGame.getHighCard`: the first rank, scanning `cardRanking` from Ace
down to Two, whose word occurs in some card name; `none` (Python `None`)
when no card has a rank word. -/
def getHighCard (l : List PCard) : Option (Fin 13) :=
  ((List.finRange 13).reverse).find? (fun k => l.any (fun c => wordMatches c k.val))

/-- Result of `checkHand`: a category index into `_CARD_HANDS` (0 = Royal
Flush ... 8 = One Pair), or the high-card fallback. -/
inductive HRes
  | cat (i : Nat)
  | high (r : Option (Fin 13))
deriving DecidableEq, Repr

/-- The outer category loop of `checkHand` (`for i in range(len(functions))`)
over a fixed list of tested 5-card lists. -/
def catLoop (ts : List (List PCard)) : List Nat → Option (Option Nat)
  | [] => some none
  | i :: rest =>
    match scanCat i ts with
    | none => none
    | some true => some (some i)
    | some false => catLoop ts rest

/-- `PokerGame.checkHand` on the card list `displayCards + [card1, card2]`:
first category (strongest first) matched by some tested 5-card list, else
the high card of `cards[5:]` (the two hole-card slots). -/
def checkHandCards (cards : List PCard) : Option HRes :=
  (catLoop (testedLists cards) (List.range 9)).map (fun o =>
    match o with
    | some i => HRes.cat i
    | none => HRes.high (getHighCard (cards.drop 5)))

/-- A list of real cards as evaluator input. -/
def realize (l : List Card) : List PCard := l.map some

/-- The evaluator applied to a 7-card hand of real cards. -/
def evalHand (l : List Card) : Option HRes := checkHandCards (realize l)

/-- Modelled from the spec (§4.2, claim C7): the reference evaluator that
"explicitly enumerates all 21 five-card combinations of the 7 cards and
tests categories from strongest to weakest with first-match short-circuit",
using the source's category tests and the source's high-card fallback. -/
def specCombEval (cards : List PCard) : Option HRes :=
  (catLoop (cards.sublistsLen 5) (List.range 9)).map (fun o =>
    match o with
    | some i => HRes.cat i
    | none => HRes.high (getHighCard (cards.drop 5)))

/-!  ### Concrete evaluator results (claims C8, and the counterexamples for
C6 and C7).  Cards are written `⟨rank, suit⟩` with the aList rank encoding
and suits C = 0, D = 1, H = 2, S = 3. -/

/-- C8: evaluating the 7-card hand {A♠, 2♦, 3♥, 4♣, 5♠, 9♦, K♥} yields the
Straight category (index 5 of `_CARD_HANDS`): the Ace counts low in the
wheel A-2-3-4-5 and no stronger category matches any tested 5-card subset. -/
theorem wheel_hand_is_straight :
    evalHand [⟨12, 3⟩, ⟨0, 1⟩, ⟨1, 2⟩, ⟨2, 0⟩, ⟨3, 3⟩, ⟨7, 1⟩, ⟨11, 2⟩] =
      some (HRes.cat 5) := by decide

/-- Counterexample to C6 as stated: the same seven cards
{2♣, 3♦, 5♥, 8♣, 9♦, J♣, K♥} in two different orders evaluate differently —
no category matches, and the high-card fallback reads only positions 5 and 6
of the input, giving Three in one order and King in the other. -/
theorem evalHand_not_permutation_invariant :
    ([⟨3, 2⟩, ⟨6, 0⟩, ⟨7, 1⟩, ⟨9, 0⟩, ⟨11, 2⟩, ⟨0, 0⟩, ⟨1, 1⟩] : List Card).Perm
        [⟨0, 0⟩, ⟨1, 1⟩, ⟨3, 2⟩, ⟨6, 0⟩, ⟨7, 1⟩, ⟨9, 0⟩, ⟨11, 2⟩] ∧
      evalHand [⟨3, 2⟩, ⟨6, 0⟩, ⟨7, 1⟩, ⟨9, 0⟩, ⟨11, 2⟩, ⟨0, 0⟩, ⟨1, 1⟩] =
        some (HRes.high (some 1)) ∧
      evalHand [⟨0, 0⟩, ⟨1, 1⟩, ⟨3, 2⟩, ⟨6, 0⟩, ⟨7, 1⟩, ⟨9, 0⟩, ⟨11, 2⟩] =
        some (HRes.high (some 11)) := by
  refine ⟨by decide, by decide, by decide⟩

/-- Counterexample to C7 as stated: on [2♠, 3♠, 9♦, 6♥, 4♠, 8♠, Q♣] the
windowed 6-then-5 rotation evaluator returns Flush — it tests the rotation
[6♥, 4♠, 8♠, 2♠, 3♠], whose first card "Six of Hearts" contributes the
capital 'S' of "Six" as the reference letter — while the evaluator that
enumerates the 21 combinations (each in left-to-right input order) matches
no category and falls back to the high card (Queen). -/
theorem windowed_ne_combinations :
    evalHand [⟨0, 3⟩, ⟨1, 3⟩, ⟨7, 1⟩, ⟨4, 2⟩, ⟨2, 3⟩, ⟨6, 3⟩, ⟨10, 0⟩] =
        some (HRes.cat 4) ∧
      specCombEval
          (realize [⟨0, 3⟩, ⟨1, 3⟩, ⟨7, 1⟩, ⟨4, 2⟩, ⟨2, 3⟩, ⟨6, 3⟩, ⟨10, 0⟩]) =
        some (HRes.high (some 10)) :=
  ⟨by decide, by decide⟩

/-! ## The betting state machine (GameFile.py, PokerGame)

State fields mirror the instance variables of `PokerGame`; sprite positions
and text rendering are UI-only and not part of the state.  The fold and call
buttons keep the constructor's `clickable=True` forever (only the raise,
new-round and exit buttons are ever passed to `changeClickability`), so only
the latter three carry a clickability flag.  Wall-clock readings
(`time.time()`) enter each operation as an explicit `now` argument, and the
`randint` stream of a shuffle as an explicit choice list. -/

inductive Winner
  | noWinner
  | user
  | computer
  | nobody
deriving DecidableEq, Repr

/-- The value of `_userHand` / `_computerHand`: the initial `"None"` string,
or a stored `checkHand` result. -/
inductive HandVal
  | unset
  | res (r : HRes)
deriving DecidableEq, Repr

structure GameState where
  userMoney : ℚ
  computerMoney : ℚ
  currentPot : ℚ
  currentWager : ℚ
  currentBeingRisked : ℚ
  roundHasEnded : Bool
  userFolded : Bool
  computerHasTurn : Bool
  computerTurnStartTime : ℚ
  startTime : ℚ
  winner : Winner
  userHand : HandVal
  computerHand : HandVal
  userCard1 : PCard
  userCard2 : PCard
  computerCard1 : PCard
  computerCard2 : PCard
  displayCards : List PCard
  cardsInDisplay : Nat
  deck : Deck
  raiseClickable : Bool
  newRoundClickable : Bool
  exitClickable : Bool
deriving DecidableEq, Repr

def MINIMUM_BET_WAGE : ℚ := 20
def START_BALANCE : ℚ := 500
def COMPUTER_WAIT_TIME : ℚ := 1

/-- `self._cardDeck.getCardFromDeck()` at state level. -/
def drawToSlot (s : GameState) : Option (Card × GameState) :=
  (s.deck.getCardFromDeck).map (fun p => (p.1, { s with deck := p.2 }))

/-- `PokerGame.__displayFlop`. -/
def displayFlop (s : GameState) : Option GameState :=
  let s0 := { s with currentWager := MINIMUM_BET_WAGE }
  (drawToSlot s0).bind (fun p0 =>
    let t0 := { p0.2 with displayCards := p0.2.displayCards.set 0 (some p0.1) }
    (drawToSlot t0).bind (fun p1 =>
      let t1 := { p1.2 with displayCards := p1.2.displayCards.set 1 (some p1.1) }
      (drawToSlot t1).bind (fun p2 =>
        some { p2.2 with
          displayCards := p2.2.displayCards.set 2 (some p2.1)
          cardsInDisplay := 3 })))

/-- `PokerGame.__displayFourthCard`. -/
def displayFourthCard (s : GameState) : Option GameState :=
  let s0 := { s with currentWager := MINIMUM_BET_WAGE }
  (drawToSlot s0).bind (fun p3 =>
    some { p3.2 with
      displayCards := p3.2.displayCards.set 3 (some p3.1)
      cardsInDisplay := 4 })

/-- `PokerGame.__displayLastCard`. -/
def displayLastCard (s : GameState) : Option GameState :=
  let s0 := { s with currentWager := MINIMUM_BET_WAGE }
  (drawToSlot s0).bind (fun p4 =>
    some { p4.2 with
      displayCards := p4.2.displayCards.set 4 (some p4.1)
      cardsInDisplay := 5 })

/-- `PokerGame.__displayNextCardSet` (an `elif` chain: exactly one tranche). -/
def displayNextCardSet (s : GameState) : Option GameState :=
  if s.cardsInDisplay = 0 then displayFlop s
  else if s.cardsInDisplay = 3 then displayFourthCard s
  else if s.cardsInDisplay = 4 then displayLastCard s
  else some s

/-- `PokerGame.checkHand(userHand)`: evaluate `displayCards + [card1, card2]`. -/
def GameState.checkHand (s : GameState) (userHand : Bool) : Option HRes :=
  if userHand then checkHandCards (s.displayCards ++ [s.userCard1, s.userCard2])
  else checkHandCards (s.displayCards ++ [s.computerCard1, s.computerCard2])

/-- `PokerGame.__fold`: pot to the computer, wager and risk reset, round
over with the computer as winner, both hands evaluated (before the reveals),
then all remaining community cards revealed (the three reveal `if`s are
sequential, not `elif`, so the display always cascades to 5 cards). -/
def foldOp (s : GameState) : Option GameState :=
  let s1 := { s with
    computerMoney := s.computerMoney + s.currentPot
    currentPot := 0
    currentWager := MINIMUM_BET_WAGE
    currentBeingRisked := 0
    roundHasEnded := true
    winner := Winner.computer
    userFolded := true }
  (s1.checkHand true).bind (fun uh =>
    (s1.checkHand false).bind (fun ch =>
      let s2 := { s1 with userHand := HandVal.res uh, computerHand := HandVal.res ch }
      (if s2.cardsInDisplay = 0 then displayFlop s2 else some s2).bind (fun s3 =>
        (if s3.cardsInDisplay = 3 then displayFourthCard s3 else some s3).bind
          (fun s4 =>
            if s4.cardsInDisplay = 4 then displayLastCard s4 else some s4))))

/-- The score looked up in `_CARD_HANDS`: a stored category string is at its
index, anything else (a high-card rank word, `None`, or the initial string)
scores `-1`. -/
def scoreOf : HandVal → Int
  | .res (.cat i) => (i : Int)
  | _ => -1

/-- The pot payment at the end of `determineWinner`: the whole pot to the
winner, or (`"Nobody"`, or any other value) half to each (Python `/` is true
division; both the pot and the balances are exact rationals here). -/
def disbursePot : Winner → GameState → GameState
  | Winner.user, s => { s with userMoney := s.userMoney + s.currentPot }
  | Winner.computer, s => { s with computerMoney := s.computerMoney + s.currentPot }
  | _, s =>
    { s with
      userMoney := s.userMoney + s.currentPot / 2
      computerMoney := s.computerMoney + s.currentPot / 2 }

/-- `PokerGame.determineWinner`.  `getHighCard` is applied to the two
hole-card slots of each player; `aList.index(None)` would raise, modelled by
the `Option` bind. -/
def determineWinner (s : GameState) : Option GameState :=
  (getHighCard [s.userCard1, s.userCard2]).bind (fun ucs =>
    (getHighCard [s.computerCard1, s.computerCard2]).bind (fun ccs =>
      let userCardScore : Nat := ucs.val
      let compCardScore : Nat := ccs.val
      let userScore := scoreOf s.userHand
      let computerScore := scoreOf s.computerHand
      let w : Winner :=
        if 0 ≤ userScore ∧ 0 ≤ computerScore then
          if userScore < computerScore then Winner.user
          else if computerScore < userScore then Winner.computer
          else if compCardScore < userCardScore then Winner.user
          else if userCardScore < compCardScore then Winner.computer
          else Winner.nobody
        else if userScore = -1 ∧ computerScore = -1 then
          if compCardScore < userCardScore then Winner.user
          else if userCardScore < compCardScore then Winner.computer
          else Winner.nobody
        else if userScore = -1 then Winner.computer
        else Winner.user
      some { disbursePot w s with
        winner := w
        currentPot := 0
        currentWager := MINIMUM_BET_WAGE
        currentBeingRisked := 0
        roundHasEnded := true }))

/-- `PokerGame.__executeComputerCall`: the computer matches the wager with
no balance guard; its decision timer starts at `now`. -/
def executeComputerCall (now : ℚ) (s : GameState) : GameState :=
  { s with
    computerMoney := s.computerMoney - s.currentWager
    currentPot := s.currentPot + s.currentWager
    computerHasTurn := true
    computerTurnStartTime := now }

/-- `PokerGame.__call`: bankruptcy recovery (balance reset, then fold) when
the wager exceeds the user's balance; otherwise commit the wager, let the
computer match it, and resolve the showdown if all five community cards are
out. -/
def callOp (now : ℚ) (s : GameState) : Option GameState :=
  if s.userMoney - s.currentWager < 0 then
    foldOp { s with
      userMoney := START_BALANCE
      computerMoney := START_BALANCE
      currentPot := 0
      currentBeingRisked := 0 }
  else
    let s1 := { s with
      userMoney := s.userMoney - s.currentWager
      currentPot := s.currentPot + s.currentWager
      currentBeingRisked := s.currentBeingRisked + s.currentWager }
    let s2 := executeComputerCall now s1
    if s2.cardsInDisplay = 5 then
      (s2.checkHand true).bind (fun uh =>
        (s2.checkHand false).bind (fun ch =>
          determineWinner
            { s2 with userHand := HandVal.res uh, computerHand := HandVal.res ch }))
    else some s2

/-- `PokerGame.__raise`: rejected outright (state unchanged) when
`userMoney < 2 * currentWager`; otherwise the wager doubles and the rest
runs as in `__call`. -/
def raiseOp (now : ℚ) (s : GameState) : Option GameState :=
  if s.userMoney < 2 * s.currentWager then some s
  else
    let s0 := { s with currentWager := 2 * s.currentWager }
    let s1 := { s0 with
      userMoney := s0.userMoney - s0.currentWager
      currentPot := s0.currentPot + s0.currentWager
      currentBeingRisked := s0.currentBeingRisked + s0.currentWager }
    let s2 := executeComputerCall now s1
    if s2.cardsInDisplay = 5 then
      (s2.checkHand true).bind (fun uh =>
        (s2.checkHand false).bind (fun ch =>
          determineWinner
            { s2 with userHand := HandVal.res uh, computerHand := HandVal.res ch }))
    else some s2

/-- `PokerGame.__startNewRound`.  Note `_displayCards` itself is not reset —
the previous round's board cards stay in the display slots (they are merely
moved off screen) until the next reveal overwrites them. -/
def startNewRoundOp (choices : List Nat) (s : GameState) : Option GameState :=
  let s1 := { s with
    winner := Winner.noWinner
    userHand := HandVal.unset
    computerHand := HandVal.unset
    currentPot := 0
    currentWager := MINIMUM_BET_WAGE
    currentBeingRisked := 0
    roundHasEnded := false
    userFolded := false
    cardsInDisplay := 0
    deck := (s.deck.addAllCardsBackIntoDeck).shuffle choices }
  (drawToSlot s1).bind (fun p1 =>
    (drawToSlot p1.2).bind (fun p2 =>
      (drawToSlot p2.2).bind (fun p3 =>
        (drawToSlot p3.2).bind (fun p4 =>
          some { p4.2 with
            userCard1 := some p1.1
            userCard2 := some p2.1
            computerCard1 := some p3.1
            computerCard2 := some p4.1 }))))

/-- `Button.mouseIsOver`: strict rectangle test. -/
def mouseIsOverRect (rx ry rw rh px py : ℚ) : Bool :=
  (rx < px ∧ px < rx + rw) ∧ (ry < py ∧ py < ry + rh)

/-- Button rectangles from the `PokerGame` constructor. -/
def overFoldButton (px py : ℚ) : Bool := mouseIsOverRect 20 20 80 50 px py
def overCallButton (px py : ℚ) : Bool := mouseIsOverRect 110 20 80 50 px py
def overRaiseButton (px py : ℚ) : Bool := mouseIsOverRect 200 20 80 50 px py
def overNewRoundButton (px py : ℚ) : Bool := mouseIsOverRect 130 20 100 50 px py
def overExitButton (px py : ℚ) : Bool := mouseIsOverRect 40 20 80 50 px py

/-- `PokerGame.mouseButtonDown`: nothing while the computer has the turn;
during a round the fold/call/raise buttons (fold and call always clickable),
after a round the new-round/exit buttons.  Exit calls `pygame.quit()`,
after which the game loop dies: modelled as `none`. -/
def mouseDownOp (px py now : ℚ) (choices : List Nat) (s : GameState) :
    Option GameState :=
  if s.computerHasTurn then some s
  else if ¬ s.roundHasEnded then
    if overFoldButton px py then foldOp s
    else if overCallButton px py then callOp now s
    else if overRaiseButton px py ∧ s.raiseClickable then raiseOp now s
    else some s
  else
    if overNewRoundButton px py ∧ s.newRoundClickable then startNewRoundOp choices s
    else if overExitButton px py ∧ s.exitClickable then none
    else some s

/-- `PokerGame.keyDown`: RETURN or q folds, guarded only by the 0.05 s
debounce on `_startTime` — there is no check of `_roundHasEnded` or
`_computerHasTurn` on this path. -/
def keyDownOp (isFoldKey : Bool) (now : ℚ) (s : GameState) : Option GameState :=
  if isFoldKey ∧ (s.startTime = -1 ∨ 1 / 20 < now - s.startTime) then
    (foldOp s).map (fun s' => { s' with startTime := now })
  else some s

/-- One event delivered by `pygame.event.get()` inside a frame.  A mouse
event carries the click position and the `randint` stream to use if it
triggers a reshuffle. -/
inductive GEvent
  | mouseEv (px py : ℚ) (choices : List Nat)
  | keyEv (isFoldKey : Bool)

def applyEvent (now : ℚ) (s : GameState) : GEvent → Option GameState
  | .mouseEv px py choices => mouseDownOp px py now choices s
  | .keyEv k => keyDownOp k now s

def applyEvents (now : ℚ) : GameState → List GEvent → Option GameState
  | s, [] => some s
  | s, e :: es => (applyEvent now s e).bind (fun s' => applyEvents now s' es)

/-- The timeout check at the top of `PokerGame.run`'s loop: after one second
of computer turn, reveal the next tranche and give the turn back. -/
def timeoutCheck (now : ℚ) (s : GameState) : Option GameState :=
  if s.computerHasTurn ∧ COMPUTER_WAIT_TIME < now - s.computerTurnStartTime then
    (displayNextCardSet s).map (fun s' => { s' with computerHasTurn := false })
  else some s

/-- First half of `__checkForClickabilityChanges`: the raise button. -/
def raiseClickStep (s : GameState) : GameState :=
  if s.userMoney < s.currentWager * 2 then { s with raiseClickable := false }
  else if ¬ s.raiseClickable ∧ s.currentWager * 2 ≤ s.userMoney then
    { s with raiseClickable := true }
  else s

/-- Second half of `__checkForClickabilityChanges`: new-round/exit buttons. -/
def endButtonsStep (s : GameState) : GameState :=
  if s.roundHasEnded ∧ (¬ s.newRoundClickable ∨ ¬ s.exitClickable) then
    { s with newRoundClickable := true, exitClickable := true }
  else if ¬ s.roundHasEnded ∧ (s.newRoundClickable ∨ s.exitClickable) then
    { s with newRoundClickable := false, exitClickable := false }
  else s

/-- `PokerGame.__checkForClickabilityChanges`, run once per frame. -/
def clickabilityUpdate (s : GameState) : GameState :=
  endButtonsStep (raiseClickStep s)

/-- One iteration of `PokerGame.run`'s while-loop at wall-clock `now`:
timeout check, then the polled events in order, then the clickability
update (rendering omitted). -/
structure Frame where
  now : ℚ
  events : List GEvent

def applyFrame (s : GameState) (f : Frame) : Option GameState :=
  (timeoutCheck f.now s).bind (fun s1 =>
    (applyEvents f.now s1 f.events).map clickabilityUpdate)

def applyTrace : GameState → List Frame → Option GameState
  | s, [] => some s
  | s, f :: fs => (applyFrame s f).bind (fun s' => applyTrace s' fs)

/-- The state built by the `PokerGame` constructor (with the constructor's
deck shuffle using `choices0`). -/
def constructedState (choices0 : List Nat) : GameState :=
  { userMoney := START_BALANCE
    computerMoney := START_BALANCE
    currentPot := 0
    currentWager := MINIMUM_BET_WAGE
    currentBeingRisked := 0
    roundHasEnded := false
    userFolded := false
    computerHasTurn := false
    computerTurnStartTime := 0
    startTime := -1
    winner := Winner.noWinner
    userHand := HandVal.unset
    computerHand := HandVal.unset
    userCard1 := none
    userCard2 := none
    computerCard1 := none
    computerCard2 := none
    displayCards := [none, none, none, none, none]
    cardsInDisplay := 0
    deck := (Deck.new 1).shuffle choices0
    raiseClickable := true
    newRoundClickable := true
    exitClickable := true }

/-- The state at the top of `PokerGame.run`'s loop: constructor followed by
the first `__startNewRound`. -/
def initGame (choices0 choices1 : List Nat) : Option GameState :=
  startNewRoundOp choices1 (constructedState choices0)

/-! ## Shape lemmas for the betting operations -/

lemma drawToSlot_shape {s : GameState} {c : Card} {s₁ : GameState}
    (h : drawToSlot s = some (c, s₁)) : ∃ dk, s₁ = { s with deck := dk } := by
  unfold drawToSlot at h
  rcases Option.map_eq_some'.1 h with ⟨p, -, hp⟩
  injection hp with h1 h2
  subst h2
  exact ⟨p.2, rfl⟩

lemma displayFlop_shape {s s' : GameState} (h : displayFlop s = some s') :
    ∃ dk dc, s' = { s with
      deck := dk
      displayCards := dc
      cardsInDisplay := 3
      currentWager := MINIMUM_BET_WAGE } := by
  unfold displayFlop at h
  simp only [Option.bind_eq_some, Option.some.injEq] at h
  obtain ⟨⟨c0, t0⟩, h0, ⟨c1, t1⟩, h1, ⟨c2, t2⟩, h2, rfl⟩ := h
  obtain ⟨d0, rfl⟩ := drawToSlot_shape h0
  obtain ⟨d1, rfl⟩ := drawToSlot_shape h1
  obtain ⟨d2, rfl⟩ := drawToSlot_shape h2
  exact ⟨_, _, rfl⟩

lemma displayFourthCard_shape {s s' : GameState} (h : displayFourthCard s = some s') :
    ∃ dk dc, s' = { s with
      deck := dk
      displayCards := dc
      cardsInDisplay := 4
      currentWager := MINIMUM_BET_WAGE } := by
  unfold displayFourthCard at h
  simp only [Option.bind_eq_some, Option.some.injEq] at h
  obtain ⟨⟨c3, t0⟩, h0, rfl⟩ := h
  obtain ⟨d0, rfl⟩ := drawToSlot_shape h0
  exact ⟨_, _, rfl⟩

lemma displayLastCard_shape {s s' : GameState} (h : displayLastCard s = some s') :
    ∃ dk dc, s' = { s with
      deck := dk
      displayCards := dc
      cardsInDisplay := 5
      currentWager := MINIMUM_BET_WAGE } := by
  unfold displayLastCard at h
  simp only [Option.bind_eq_some, Option.some.injEq] at h
  obtain ⟨⟨c4, t0⟩, h0, rfl⟩ := h
  obtain ⟨d0, rfl⟩ := drawToSlot_shape h0
  exact ⟨_, _, rfl⟩

/-- The fields `__fold` pins down, stated of an intermediate state `t`
relative to the entry state `s`. -/
def foldFields (s t : GameState) : Prop :=
  t.userMoney = s.userMoney ∧
    t.computerMoney = s.computerMoney + s.currentPot ∧
    t.currentPot = 0 ∧
    t.currentWager = MINIMUM_BET_WAGE ∧
    t.currentBeingRisked = 0 ∧
    t.roundHasEnded = true ∧
    t.winner = Winner.computer ∧
    t.userFolded = true ∧
    t.computerHasTurn = s.computerHasTurn ∧
    t.startTime = s.startTime

lemma foldFields_displayFlop {s u u' : GameState} (h : displayFlop u = some u')
    (hf : foldFields s u) : foldFields s u' := by
  obtain ⟨dk, dc, rfl⟩ := displayFlop_shape h
  obtain ⟨h1, h2, h3, h4, h5, h6, h7, h8, h9, h10⟩ := hf
  exact ⟨h1, h2, h3, rfl, h5, h6, h7, h8, h9, h10⟩

lemma foldFields_displayFourthCard {s u u' : GameState}
    (h : displayFourthCard u = some u') (hf : foldFields s u) : foldFields s u' := by
  obtain ⟨dk, dc, rfl⟩ := displayFourthCard_shape h
  obtain ⟨h1, h2, h3, h4, h5, h6, h7, h8, h9, h10⟩ := hf
  exact ⟨h1, h2, h3, rfl, h5, h6, h7, h8, h9, h10⟩

lemma foldFields_displayLastCard {s u u' : GameState}
    (h : displayLastCard u = some u') (hf : foldFields s u) : foldFields s u' := by
  obtain ⟨dk, dc, rfl⟩ := displayLastCard_shape h
  obtain ⟨h1, h2, h3, h4, h5, h6, h7, h8, h9, h10⟩ := hf
  exact ⟨h1, h2, h3, rfl, h5, h6, h7, h8, h9, h10⟩

lemma foldFields_ifStep {s tA t1 : GameState} {c : Prop} [Decidable c]
    {g : GameState → Option GameState}
    (hg : ∀ u u', g u = some u' → foldFields s u → foldFields s u')
    (hf : foldFields s tA)
    (h : (if c then g tA else some tA) = some t1) : foldFields s t1 := by
  split at h
  · exact hg _ _ h hf
  · rw [Option.some_inj] at h
    subst h
    exact hf

/-- Everything `__fold` guarantees about the resulting state, whatever
cards get revealed on the way. -/
lemma foldOp_shape {s s' : GameState} (h : foldOp s = some s') :
    foldFields s s' := by
  unfold foldOp at h
  simp only [Option.bind_eq_some, Option.some.injEq] at h
  obtain ⟨uh, -, ch, -, t1, h1, t2, h2, h3⟩ := h
  have hf0 : foldFields s
      { s with
        computerMoney := s.computerMoney + s.currentPot
        currentPot := 0
        currentWager := MINIMUM_BET_WAGE
        currentBeingRisked := 0
        roundHasEnded := true
        winner := Winner.computer
        userFolded := true
        userHand := HandVal.res uh
        computerHand := HandVal.res ch } :=
    ⟨rfl, rfl, rfl, rfl, rfl, rfl, rfl, rfl, rfl, rfl⟩
  have hf1 := foldFields_ifStep (fun _ _ => foldFields_displayFlop) hf0 h1
  have hf2 := foldFields_ifStep (fun _ _ => foldFields_displayFourthCard) hf1 h2
  exact foldFields_ifStep (fun _ _ => foldFields_displayLastCard) hf2 h3

/-! ## Claim C3: an unaffordable raise is a complete no-op -/

/-- C3: whenever `userMoney < 2 * currentWager`, a Raise returns with the
whole game state (pot, wagers, balances, phase, cards, deck — every field)
unchanged. -/
theorem raise_insufficient_noop (now : ℚ) (s : GameState)
    (h : s.userMoney < 2 * s.currentWager) :
    raiseOp now s = some s := by
  unfold raiseOp
  rw [if_pos h]

/-- A mid-round state whose user is too poor to call or raise. -/
def poorState : GameState :=
  { constructedState [] with
    userMoney := 10
    userCard1 := some ⟨9, 0⟩
    userCard2 := some ⟨11, 2⟩
    computerCard1 := some ⟨10, 1⟩
    computerCard2 := some ⟨12, 2⟩ }

unseal Rat.add Rat.sub Rat.mul Rat.inv in
/-- Witness for `raise_insufficient_noop`: the poor state has 10 < 2·20. -/
theorem raise_insufficient_noop_witness :
    poorState.userMoney < 2 * poorState.currentWager ∧
      raiseOp 3 poorState = some poorState :=
  ⟨by decide, raise_insufficient_noop 3 poorState (by decide)⟩

/-! ## Claim C2: bankruptcy recovery on Call -/

/-- C2: when a Call would make the user's balance negative, both balances
are reset to the starting balance (no wager is deducted), the pot is
cleared, and the round resolves as an immediate fold: round over, computer
recorded as winner, user marked folded. -/
theorem call_bankruptcy_recovery (now : ℚ) (s s' : GameState)
    (hb : s.userMoney - s.currentWager < 0)
    (h : callOp now s = some s') :
    s'.userMoney = START_BALANCE ∧
      s'.computerMoney = START_BALANCE ∧
      s'.currentPot = 0 ∧
      s'.currentBeingRisked = 0 ∧
      s'.roundHasEnded = true ∧
      s'.winner = Winner.computer ∧
      s'.userFolded = true := by
  unfold callOp at h
  rw [if_pos hb] at h
  obtain ⟨h1, h2, h3, -, h5, h6, h7, h8, -, -⟩ := foldOp_shape h
  simp only [add_zero] at h1 h2 h3 h5 h6 h7 h8
  exact ⟨h1, h2, h3, h5, h6, h7, h8⟩

def poorCallResult : GameState := (callOp 0 poorState).getD (constructedState [])

unseal Rat.add Rat.sub Rat.mul Rat.inv in
/-- Witness for `call_bankruptcy_recovery`: calling with balance 10 against
wager 20. -/
theorem call_bankruptcy_recovery_witness :
    poorState.userMoney - poorState.currentWager < 0 ∧
      callOp 0 poorState = some poorCallResult ∧
      (poorCallResult.userMoney = START_BALANCE ∧
        poorCallResult.computerMoney = START_BALANCE ∧
        poorCallResult.currentPot = 0 ∧
        poorCallResult.currentBeingRisked = 0 ∧
        poorCallResult.roundHasEnded = true ∧
        poorCallResult.winner = Winner.computer ∧
        poorCallResult.userFolded = true) :=
  ⟨by decide, by decide,
    call_bankruptcy_recovery 0 poorState poorCallResult (by decide) (by decide)⟩

/-! ## Claim C10: the betting operations conserve money -/

/-- The money in play: both balances plus the pot. -/
def totalMoney (s : GameState) : ℚ :=
  s.userMoney + s.computerMoney + s.currentPot

lemma disbursePot_sum (w : Winner) (s : GameState) :
    (disbursePot w s).userMoney + (disbursePot w s).computerMoney =
      totalMoney s := by
  cases w <;> simp [disbursePot, totalMoney] <;> ring

lemma determineWinner_conserves {s s' : GameState}
    (h : determineWinner s = some s') : totalMoney s' = totalMoney s := by
  unfold determineWinner at h
  simp only [Option.bind_eq_some, Option.some.injEq] at h
  obtain ⟨ucs, -, ccs, -, rfl⟩ := h
  show (disbursePot _ s).userMoney + (disbursePot _ s).computerMoney + 0 = _
  rw [add_zero, disbursePot_sum]

lemma executeComputerCall_conserves (now : ℚ) (s : GameState) :
    totalMoney (executeComputerCall now s) = totalMoney s := by
  simp only [executeComputerCall, totalMoney]
  ring

lemma foldOp_conserves {s s' : GameState} (h : foldOp s = some s') :
    totalMoney s' = totalMoney s := by
  obtain ⟨h1, h2, h3, -, -, -, -, -, -, -⟩ := foldOp_shape h
  unfold totalMoney
  rw [h1, h2, h3]
  ring

lemma callOp_conserves {now : ℚ} {s s' : GameState}
    (hb : 0 ≤ s.userMoney - s.currentWager)
    (h : callOp now s = some s') : totalMoney s' = totalMoney s := by
  unfold callOp at h
  rw [if_neg (not_lt.2 hb)] at h
  simp only [executeComputerCall] at h
  split at h
  · simp only [Option.bind_eq_some] at h
    obtain ⟨uh, -, ch, -, hd⟩ := h
    rw [determineWinner_conserves hd]
    simp only [totalMoney, executeComputerCall]
    ring
  · rw [Option.some_inj] at h
    subst h
    simp only [totalMoney, executeComputerCall]
    ring

lemma raiseOp_conserves {now : ℚ} {s s' : GameState}
    (hb : 2 * s.currentWager ≤ s.userMoney)
    (h : raiseOp now s = some s') : totalMoney s' = totalMoney s := by
  unfold raiseOp at h
  rw [if_neg (not_lt.2 hb)] at h
  simp only [executeComputerCall] at h
  split at h
  · simp only [Option.bind_eq_some] at h
    obtain ⟨uh, -, ch, -, hd⟩ := h
    rw [determineWinner_conserves hd]
    simp only [totalMoney, executeComputerCall]
    ring
  · rw [Option.some_inj] at h
    subst h
    simp only [totalMoney, executeComputerCall]
    ring

/-- C10: every betting operation other than the bankruptcy-recovery branch
of Call conserves `userBalance + computerBalance + pot`: a fold, a
non-bankrupting call, an accepted raise, the computer's matching call, and
winner resolution (including the even split on a tie). -/
theorem betting_ops_conserve_money :
    (∀ s s' : GameState, foldOp s = some s' → totalMoney s' = totalMoney s) ∧
      (∀ (now : ℚ) (s s' : GameState), 0 ≤ s.userMoney - s.currentWager →
        callOp now s = some s' → totalMoney s' = totalMoney s) ∧
      (∀ (now : ℚ) (s s' : GameState), 2 * s.currentWager ≤ s.userMoney →
        raiseOp now s = some s' → totalMoney s' = totalMoney s) ∧
      (∀ (now : ℚ) (s : GameState),
        totalMoney (executeComputerCall now s) = totalMoney s) ∧
      (∀ s s' : GameState, determineWinner s = some s' →
        totalMoney s' = totalMoney s) :=
  ⟨fun _ _ h => foldOp_conserves h,
    fun _ _ _ hb h => callOp_conserves hb h,
    fun _ _ _ hb h => raiseOp_conserves hb h,
    executeComputerCall_conserves,
    fun _ _ h => determineWinner_conserves h⟩

/-- A mid-round state with the full starting balance. -/
def richState : GameState := { poorState with userMoney := 500 }

def foldSample : GameState := (foldOp richState).getD (constructedState [])
def callSample : GameState := (callOp 0 richState).getD (constructedState [])
def raiseSample : GameState := (raiseOp 0 richState).getD (constructedState [])
def winnerSample : GameState := (determineWinner richState).getD (constructedState [])

unseal Rat.add Rat.sub Rat.mul Rat.inv in
/-- Witness for `betting_ops_conserve_money`: each of the five operations
applied at a concrete state. -/
theorem betting_ops_conserve_money_witness :
    (foldOp richState = some foldSample ∧
        totalMoney foldSample = totalMoney richState) ∧
      (0 ≤ richState.userMoney - richState.currentWager ∧
        callOp 0 richState = some callSample ∧
        totalMoney callSample = totalMoney richState) ∧
      (2 * richState.currentWager ≤ richState.userMoney ∧
        raiseOp 0 richState = some raiseSample ∧
        totalMoney raiseSample = totalMoney richState) ∧
      totalMoney (executeComputerCall 0 richState) = totalMoney richState ∧
      (determineWinner richState = some winnerSample ∧
        totalMoney winnerSample = totalMoney richState) :=
  ⟨⟨by decide, betting_ops_conserve_money.1 richState foldSample (by decide)⟩,
    ⟨by decide, by decide,
      betting_ops_conserve_money.2.1 0 richState callSample (by decide) (by decide)⟩,
    ⟨by decide, by decide,
      betting_ops_conserve_money.2.2.1 0 richState raiseSample (by decide) (by decide)⟩,
    betting_ops_conserve_money.2.2.2.1 0 richState,
    ⟨by decide,
      betting_ops_conserve_money.2.2.2.2 richState winnerSample (by decide)⟩⟩

/-! ## Claim C4: are actions no-ops while the round is over or the
computer's delay is pending? -/

/-- A river-street state in which the computer's decision delay is pending. -/
def pendingTurnState : GameState :=
  { constructedState [] with
    computerHasTurn := true
    computerTurnStartTime := 0
    userCard1 := some ⟨9, 0⟩
    userCard2 := some ⟨11, 2⟩
    computerCard1 := some ⟨10, 1⟩
    computerCard2 := some ⟨12, 2⟩
    displayCards := [some ⟨0, 0⟩, some ⟨1, 1⟩, some ⟨3, 2⟩, some ⟨6, 0⟩, some ⟨7, 1⟩]
    cardsInDisplay := 5 }

def pendingTurnFoldResult : GameState :=
  (applyFrame pendingTurnState ⟨0, [GEvent.keyEv true]⟩).getD (constructedState [])

unseal Rat.add Rat.sub Rat.mul Rat.inv in
/-- Counterexample to C4 as stated: while the computer's decision delay is
pending (`computerHasTurn`, delay not yet expired at `now = 0`), pressing
the fold key still executes a fold — the keyboard channel checks only the
0.05 s debounce, not the phase.  The frame changes the game state: the round
ends, the user is marked folded, the winner becomes the computer. -/
theorem key_fold_during_computer_turn_changes_state :
    pendingTurnState.computerHasTurn = true ∧
      pendingTurnState.roundHasEnded = false ∧
      pendingTurnState.userFolded = false ∧
      applyFrame pendingTurnState ⟨0, [GEvent.keyEv true]⟩ =
        some pendingTurnFoldResult ∧
      pendingTurnFoldResult.userFolded = true ∧
      pendingTurnFoldResult.roundHasEnded = true ∧
      pendingTurnFoldResult.winner = Winner.computer :=
  ⟨rfl, rfl, rfl, by decide, by decide, by decide, by decide⟩

/-- Amended C4: on the mouse channel the guards do hold — any click while
the computer's delay is pending is a no-op, and while the round is over a
click that hits neither the new-round nor the exit button (the action
buttons' areas outside those two rectangles included) is a no-op.  (The
keyboard fold channel violates the claim; see the counterexample.) -/
theorem mouse_actions_guarded (px py now : ℚ) (ch : List Nat) (s : GameState) :
    (s.computerHasTurn = true → mouseDownOp px py now ch s = some s) ∧
      (s.computerHasTurn = false → s.roundHasEnded = true →
        overNewRoundButton px py = false → overExitButton px py = false →
        mouseDownOp px py now ch s = some s) := by
  constructor
  · intro h
    unfold mouseDownOp
    rw [if_pos (by simp [h])]
  · intro h1 h2 h3 h4
    unfold mouseDownOp
    simp [h1, h2, h3, h4]

/-- A state whose round is over. -/
def roundOverState : GameState :=
  { constructedState [] with roundHasEnded := true }

unseal Rat.add Rat.sub Rat.mul Rat.inv in
/-- Witness for `mouse_actions_guarded`: a click at (240, 45) (over the
raise button) during the computer's turn, and a click at (30, 45) (over the
fold button, outside the new-round and exit rectangles) while the round is
over. -/
theorem mouse_actions_guarded_witness :
    (pendingTurnState.computerHasTurn = true ∧
        mouseDownOp 240 45 0 [] pendingTurnState = some pendingTurnState) ∧
      (roundOverState.computerHasTurn = false ∧
        roundOverState.roundHasEnded = true ∧
        overFoldButton 30 45 = true ∧
        overNewRoundButton 30 45 = false ∧
        overExitButton 30 45 = false ∧
        mouseDownOp 30 45 0 [] roundOverState = some roundOverState) :=
  ⟨⟨rfl, (mouse_actions_guarded 240 45 0 [] pendingTurnState).1 rfl⟩,
    ⟨rfl, rfl, by decide, by decide, by decide,
      (mouse_actions_guarded 30 45 0 [] roundOverState).2 rfl rfl
        (by decide) (by decide)⟩⟩

/-! ## Claim C1: the tie-break at showdown -/

/-- Board A♠ A♥ 9♣ 8♦ 4♠; the user holds 2♣ 3♦ and the computer K♦ Q♥.
Both sides' best category is One Pair (the aces on the board), and both
7-card hands have the same maximum rank (the ace). -/
def tieState : GameState :=
  { constructedState [] with
    displayCards :=
      [some ⟨12, 3⟩, some ⟨12, 2⟩, some ⟨7, 0⟩, some ⟨6, 1⟩, some ⟨2, 3⟩]
    cardsInDisplay := 5
    currentPot := 80
    userCard1 := some ⟨0, 0⟩
    userCard2 := some ⟨1, 1⟩
    computerCard1 := some ⟨11, 1⟩
    computerCard2 := some ⟨10, 2⟩
    userHand := HandVal.res (HRes.cat 8)
    computerHand := HandVal.res (HRes.cat 8) }

def tieResult : GameState := (determineWinner tieState).getD (constructedState [])

unseal Rat.add Rat.sub Rat.mul Rat.inv in
/-- Counterexample to C1 as stated: in `tieState` both evaluated categories
have the same ordinal (One Pair — the stored hands are exactly what
`checkHand` computes for these cards), and the maximum-rank card across each
player's full 7-card hand is the same (the board ace), so the claim demands
a push with the pot split evenly.  The code instead breaks the tie on the
high card of the two hole cards alone and awards the whole pot to the
computer. -/
theorem tiebreak_reads_hole_cards_only :
    tieState.checkHand true = some (HRes.cat 8) ∧
      tieState.checkHand false = some (HRes.cat 8) ∧
      getHighCard (tieState.displayCards ++
          [tieState.userCard1, tieState.userCard2]) =
        getHighCard (tieState.displayCards ++
          [tieState.computerCard1, tieState.computerCard2]) ∧
      determineWinner tieState = some tieResult ∧
      tieResult.winner = Winner.computer ∧
      tieResult.computerMoney = tieState.computerMoney + 80 ∧
      tieResult.userMoney = tieState.userMoney :=
  ⟨by decide, by decide, by decide, by decide, by decide, by decide, by decide⟩

lemma scoreOf_neg_or (h : HandVal) : scoreOf h = -1 ∨ 0 ≤ scoreOf h := by
  cases h with
  | unset => exact Or.inl rfl
  | res r =>
    cases r with
    | cat i => exact Or.inr (Int.ofNat_nonneg i)
    | high r => exact Or.inl rfl

lemma winner_ite_eq (su sc : Int) (ucs ccs : Nat)
    (hv : su = -1 ∨ 0 ≤ su) (hs : su = sc) :
    (if 0 ≤ su ∧ 0 ≤ sc then
        if su < sc then Winner.user
        else if sc < su then Winner.computer
        else if ccs < ucs then Winner.user
        else if ucs < ccs then Winner.computer
        else Winner.nobody
      else if su = -1 ∧ sc = -1 then
        if ccs < ucs then Winner.user
        else if ucs < ccs then Winner.computer
        else Winner.nobody
      else if su = -1 then Winner.computer
      else Winner.user) =
      (if ccs < ucs then Winner.user
        else if ucs < ccs then Winner.computer
        else Winner.nobody) := by
  subst hs
  rcases hv with h | h
  · rw [if_neg (by omega), if_pos ⟨h, h⟩]
  · rw [if_pos ⟨h, h⟩, if_neg (lt_irrefl su), if_neg (lt_irrefl su)]

/-- Amended C1: at a showdown in which both players' stored hand values have
the same score (both the same category ordinal, or both scoreless), the
winner is decided by the maximum-rank card among each player's TWO HOLE
CARDS only; if those maxima are also equal the round is a push and the pot
is split evenly. -/
theorem determineWinner_equal_scores (s : GameState) (ru rc : Fin 13)
    (hu : getHighCard [s.userCard1, s.userCard2] = some ru)
    (hc : getHighCard [s.computerCard1, s.computerCard2] = some rc)
    (hs : scoreOf s.userHand = scoreOf s.computerHand) :
    ∃ s', determineWinner s = some s' ∧
      (rc.val < ru.val → s'.winner = Winner.user ∧
        s'.userMoney = s.userMoney + s.currentPot ∧
        s'.computerMoney = s.computerMoney) ∧
      (ru.val < rc.val → s'.winner = Winner.computer ∧
        s'.computerMoney = s.computerMoney + s.currentPot ∧
        s'.userMoney = s.userMoney) ∧
      (ru = rc → s'.winner = Winner.nobody ∧
        s'.userMoney = s.userMoney + s.currentPot / 2 ∧
        s'.computerMoney = s.computerMoney + s.currentPot / 2) ∧
      s'.currentPot = 0 ∧ s'.roundHasEnded = true := by
  unfold determineWinner
  rw [hu, hc]
  simp only [Option.some_bind]
  rw [winner_ite_eq _ _ ru.val rc.val (scoreOf_neg_or s.userHand) hs]
  refine ⟨_, rfl, ?_, ?_, ?_, rfl, rfl⟩
  · intro h
    rw [if_pos h]
    exact ⟨rfl, rfl, rfl⟩
  · intro h
    rw [if_neg (by omega), if_pos h]
    exact ⟨rfl, rfl, rfl⟩
  · intro h
    have : ru.val = rc.val := congrArg Fin.val h
    rw [if_neg (by omega), if_neg (by omega)]
    exact ⟨rfl, rfl, rfl⟩

unseal Rat.add Rat.sub Rat.mul Rat.inv in
/-- Witness for `determineWinner_equal_scores` at `tieState` (user hole max
Three = rank 1, computer hole max King = rank 11, equal scores). -/
theorem determineWinner_equal_scores_witness :
    getHighCard [tieState.userCard1, tieState.userCard2] = some 1 ∧
      getHighCard [tieState.computerCard1, tieState.computerCard2] = some 11 ∧
      scoreOf tieState.userHand = scoreOf tieState.computerHand ∧
      (∃ s', determineWinner tieState = some s' ∧
        ((11 : Fin 13).val < (1 : Fin 13).val → s'.winner = Winner.user ∧
          s'.userMoney = tieState.userMoney + tieState.currentPot ∧
          s'.computerMoney = tieState.computerMoney) ∧
        ((1 : Fin 13).val < (11 : Fin 13).val → s'.winner = Winner.computer ∧
          s'.computerMoney = tieState.computerMoney + tieState.currentPot ∧
          s'.userMoney = tieState.userMoney) ∧
        ((1 : Fin 13) = 11 → s'.winner = Winner.nobody ∧
          s'.userMoney = tieState.userMoney + tieState.currentPot / 2 ∧
          s'.computerMoney = tieState.computerMoney + tieState.currentPot / 2) ∧
        s'.currentPot = 0 ∧ s'.roundHasEnded = true) :=
  ⟨by decide, by decide, by decide,
    determineWinner_equal_scores tieState 1 11 (by decide) (by decide) (by decide)⟩

/-! ## Claim C9: signs of the balances over all reachable states -/

/-- The monetary invariant every frame maintains: the user's balance, the
pot and the wager never go negative.  (No such invariant holds for the
computer's balance: `__executeComputerCall` deducts without a guard.) -/
def MoneyInv (s : GameState) : Prop :=
  0 ≤ s.userMoney ∧ 0 ≤ s.currentPot ∧ 0 ≤ s.currentWager

lemma minimum_wage_nonneg : (0 : ℚ) ≤ MINIMUM_BET_WAGE := by
  norm_num [MINIMUM_BET_WAGE]

lemma foldOp_inv {s s' : GameState} (h : foldOp s = some s')
    (hu : 0 ≤ s.userMoney) : MoneyInv s' := by
  obtain ⟨h1, -, h3, h4, -, -, -, -, -, -⟩ := foldOp_shape h
  refine ⟨?_, ?_, ?_⟩
  · rw [h1]; exact hu
  · rw [h3]
  · rw [h4]; exact minimum_wage_nonneg

lemma disbursePot_user_nonneg (w : Winner) {s : GameState}
    (hu : 0 ≤ s.userMoney) (hp : 0 ≤ s.currentPot) :
    0 ≤ (disbursePot w s).userMoney := by
  cases w <;> simp only [disbursePot] <;> positivity

lemma determineWinner_inv {s s' : GameState} (h : determineWinner s = some s')
    (hu : 0 ≤ s.userMoney) (hp : 0 ≤ s.currentPot) : MoneyInv s' := by
  unfold determineWinner at h
  simp only [Option.bind_eq_some, Option.some.injEq] at h
  obtain ⟨ucs, -, ccs, -, rfl⟩ := h
  exact ⟨disbursePot_user_nonneg _ hu hp, le_refl 0, minimum_wage_nonneg⟩

lemma callOp_inv {now : ℚ} {s s' : GameState} (h : callOp now s = some s')
    (hi : MoneyInv s) : MoneyInv s' := by
  obtain ⟨hu, hp, hw⟩ := hi
  unfold callOp at h
  split at h
  · exact foldOp_inv h (by norm_num [START_BALANCE])
  · next hb =>
    rw [not_lt] at hb
    simp only [executeComputerCall] at h
    split at h
    · simp only [Option.bind_eq_some] at h
      obtain ⟨uh, -, ch, -, hd⟩ := h
      exact determineWinner_inv hd (by simpa using hb) (by positivity)
    · rw [Option.some_inj] at h
      subst h
      exact ⟨by simpa using hb, by positivity, hw⟩

lemma raiseOp_inv {now : ℚ} {s s' : GameState} (h : raiseOp now s = some s')
    (hi : MoneyInv s) : MoneyInv s' := by
  obtain ⟨hu, hp, hw⟩ := hi
  unfold raiseOp at h
  split at h
  · rw [Option.some_inj] at h; subst h; exact ⟨hu, hp, hw⟩
  · next hb =>
    rw [not_lt] at hb
    simp only [executeComputerCall] at h
    split at h
    · simp only [Option.bind_eq_some] at h
      obtain ⟨uh, -, ch, -, hd⟩ := h
      refine determineWinner_inv hd ?_ ?_
      · show (0 : ℚ) ≤ s.userMoney - 2 * s.currentWager
        linarith
      · show (0 : ℚ) ≤ s.currentPot + 2 * s.currentWager + 2 * s.currentWager
        positivity
    · rw [Option.some_inj] at h
      subst h
      refine ⟨?_, ?_, ?_⟩
      · show (0 : ℚ) ≤ s.userMoney - 2 * s.currentWager
        linarith
      · show (0 : ℚ) ≤ s.currentPot + 2 * s.currentWager + 2 * s.currentWager
        positivity
      · show (0 : ℚ) ≤ 2 * s.currentWager
        positivity

lemma startNewRoundOp_inv {ch : List Nat} {s s' : GameState}
    (h : startNewRoundOp ch s = some s') (hu : 0 ≤ s.userMoney) :
    MoneyInv s' := by
  unfold startNewRoundOp at h
  simp only [Option.bind_eq_some, Option.some.injEq] at h
  obtain ⟨⟨c1, t1⟩, h1, ⟨c2, t2⟩, h2, ⟨c3, t3⟩, h3, ⟨c4, t4⟩, h4, rfl⟩ := h
  obtain ⟨d1, rfl⟩ := drawToSlot_shape h1
  obtain ⟨d2, rfl⟩ := drawToSlot_shape h2
  obtain ⟨d3, rfl⟩ := drawToSlot_shape h3
  obtain ⟨d4, rfl⟩ := drawToSlot_shape h4
  exact ⟨hu, le_refl 0, minimum_wage_nonneg⟩

lemma displayNextCardSet_inv {s s' : GameState}
    (h : displayNextCardSet s = some s') (hi : MoneyInv s) : MoneyInv s' := by
  unfold displayNextCardSet at h
  split at h
  · obtain ⟨dk, dc, rfl⟩ := displayFlop_shape h
    exact ⟨hi.1, hi.2.1, minimum_wage_nonneg⟩
  · split at h
    · obtain ⟨dk, dc, rfl⟩ := displayFourthCard_shape h
      exact ⟨hi.1, hi.2.1, minimum_wage_nonneg⟩
    · split at h
      · obtain ⟨dk, dc, rfl⟩ := displayLastCard_shape h
        exact ⟨hi.1, hi.2.1, minimum_wage_nonneg⟩
      · rw [Option.some_inj] at h; subst h; exact hi

lemma timeoutCheck_inv {now : ℚ} {s s' : GameState}
    (h : timeoutCheck now s = some s') (hi : MoneyInv s) : MoneyInv s' := by
  unfold timeoutCheck at h
  split at h
  · rcases Option.map_eq_some'.1 h with ⟨t, ht, rfl⟩
    have hd := displayNextCardSet_inv ht hi
    exact ⟨hd.1, hd.2.1, hd.2.2⟩
  · rw [Option.some_inj] at h; subst h; exact hi

lemma keyDownOp_inv {k : Bool} {now : ℚ} {s s' : GameState}
    (h : keyDownOp k now s = some s') (hi : MoneyInv s) : MoneyInv s' := by
  unfold keyDownOp at h
  split at h
  · rcases Option.map_eq_some'.1 h with ⟨t, ht, rfl⟩
    have hf := foldOp_inv ht hi.1
    exact ⟨hf.1, hf.2.1, hf.2.2⟩
  · rw [Option.some_inj] at h; subst h; exact hi

lemma mouseDownOp_inv {px py now : ℚ} {ch : List Nat} {s s' : GameState}
    (h : mouseDownOp px py now ch s = some s') (hi : MoneyInv s) :
    MoneyInv s' := by
  unfold mouseDownOp at h
  split at h
  · rw [Option.some_inj] at h; subst h; exact hi
  · split at h
    · split at h
      · exact foldOp_inv h hi.1
      · split at h
        · exact callOp_inv h hi
        · split at h
          · exact raiseOp_inv h hi
          · rw [Option.some_inj] at h; subst h; exact hi
    · split at h
      · exact startNewRoundOp_inv h hi.1
      · split at h
        · exact Option.noConfusion h
        · rw [Option.some_inj] at h; subst h; exact hi

lemma applyEvent_inv {now : ℚ} {s s' : GameState} {e : GEvent}
    (h : applyEvent now s e = some s') (hi : MoneyInv s) : MoneyInv s' := by
  cases e with
  | mouseEv px py ch => exact mouseDownOp_inv h hi
  | keyEv k => exact keyDownOp_inv h hi

lemma applyEvents_inv {now : ℚ} : ∀ {es : List GEvent} {s s' : GameState},
    applyEvents now s es = some s' → MoneyInv s → MoneyInv s'
  | [], s, s', h, hi => by
    rw [applyEvents, Option.some_inj] at h; subst h; exact hi
  | e :: es, s, s', h, hi => by
    rw [applyEvents] at h
    rcases Option.bind_eq_some.1 h with ⟨t, ht, h2⟩
    exact applyEvents_inv h2 (applyEvent_inv ht hi)

lemma raiseClickStep_money (s : GameState) :
    (raiseClickStep s).userMoney = s.userMoney ∧
      (raiseClickStep s).currentPot = s.currentPot ∧
      (raiseClickStep s).currentWager = s.currentWager := by
  unfold raiseClickStep
  split
  · exact ⟨rfl, rfl, rfl⟩
  · split
    · exact ⟨rfl, rfl, rfl⟩
    · exact ⟨rfl, rfl, rfl⟩

lemma endButtonsStep_money (s : GameState) :
    (endButtonsStep s).userMoney = s.userMoney ∧
      (endButtonsStep s).currentPot = s.currentPot ∧
      (endButtonsStep s).currentWager = s.currentWager := by
  unfold endButtonsStep
  split
  · exact ⟨rfl, rfl, rfl⟩
  · split
    · exact ⟨rfl, rfl, rfl⟩
    · exact ⟨rfl, rfl, rfl⟩

lemma clickabilityUpdate_inv {s : GameState} (hi : MoneyInv s) :
    MoneyInv (clickabilityUpdate s) := by
  obtain ⟨e1, e2, e3⟩ := endButtonsStep_money (raiseClickStep s)
  obtain ⟨r1, r2, r3⟩ := raiseClickStep_money s
  unfold clickabilityUpdate
  rw [MoneyInv, e1, e2, e3, r1, r2, r3]
  exact hi

lemma applyFrame_inv {s s' : GameState} {f : Frame}
    (h : applyFrame s f = some s') (hi : MoneyInv s) : MoneyInv s' := by
  unfold applyFrame at h
  rcases Option.bind_eq_some.1 h with ⟨t, ht, h2⟩
  rcases Option.map_eq_some'.1 h2 with ⟨u, hu, rfl⟩
  exact clickabilityUpdate_inv (applyEvents_inv hu (timeoutCheck_inv ht hi))

lemma applyTrace_inv : ∀ {tr : List Frame} {s s' : GameState},
    applyTrace s tr = some s' → MoneyInv s → MoneyInv s'
  | [], s, s', h, hi => by
    rw [applyTrace, Option.some_inj] at h; subst h; exact hi
  | f :: fs, s, s', h, hi => by
    rw [applyTrace] at h
    rcases Option.bind_eq_some.1 h with ⟨t, ht, h2⟩
    exact applyTrace_inv h2 (applyFrame_inv ht hi)

lemma initGame_inv {c0 c1 : List Nat} {s0 : GameState}
    (h : initGame c0 c1 = some s0) : MoneyInv s0 :=
  startNewRoundOp_inv h (by norm_num [constructedState, START_BALANCE])

/-- Amended C9, positive part: in every state reachable from the start of
the game by any sequence of frames (timeouts, mouse clicks, key presses),
the HUMAN's balance is non-negative — with no transient exception, since the
bankruptcy reset raises the balance to the starting value before the fold
runs.  (The computer's balance can go negative; see the counterexample.) -/
theorem user_balance_nonneg (c0 c1 : List Nat) (tr : List Frame)
    (s0 s : GameState) (h0 : initGame c0 c1 = some s0)
    (h : applyTrace s0 tr = some s) : 0 ≤ s.userMoney :=
  (applyTrace_inv h (initGame_inv h0)).1

def initSample : GameState :=
  (initGame (List.replicate 52 51) (List.replicate 52 51)).getD
    (constructedState [])

unseal Rat.add Rat.sub Rat.mul Rat.inv in
/-- Witness for `user_balance_nonneg` at the freshly started game. -/
theorem user_balance_nonneg_witness :
    initGame (List.replicate 52 51) (List.replicate 52 51) = some initSample ∧
      0 ≤ initSample.userMoney :=
  ⟨by decide,
    user_balance_nonneg (List.replicate 52 51) (List.replicate 52 51) []
      initSample initSample (by decide) rfl⟩

/-! The counterexample to C9 as stated: a concrete reachable state with a
negative computer balance.  The shuffle choice lists arrange each round's
deal so that the user holds A♠ K♠ over a Q♠ J♠ 10♠ 4♥ 9♦ board (a royal
flush) while the computer holds 2♣ 3♦ (no category).  The user raises every
street of three full rounds (the computer matches 160 per round and loses
the 320 pot each time, falling 500 → 340 → 180 → 20), then one more raise in
round four drives the computer's balance to −20. -/

def cxChoicesR1 : List Nat :=
  [3, 51, 5, 10, 48, 45, 42, 18, 37] ++ List.replicate 43 51

def cxChoicesRk : List Nat :=
  [0, 1, 2, 3, 4, 5, 6, 7, 8] ++ List.replicate 43 51

/-- One engineered round: four raises (each answered by a timeout frame that
reveals the next tranche and returns the turn), then a click on the
new-round button carrying the next round's shuffle choices. -/
def cxRound (t : ℚ) (nextChoices : List Nat) : List Frame :=
  [⟨t + 1, [GEvent.mouseEv 240 45 []]⟩, ⟨t + 3, []⟩,
   ⟨t + 4, [GEvent.mouseEv 240 45 []]⟩, ⟨t + 6, []⟩,
   ⟨t + 7, [GEvent.mouseEv 240 45 []]⟩, ⟨t + 9, []⟩,
   ⟨t + 10, [GEvent.mouseEv 240 45 []]⟩, ⟨t + 12, []⟩,
   ⟨t + 13, [GEvent.mouseEv 225 45 nextChoices]⟩]

def cxTrace : List Frame :=
  cxRound 20 cxChoicesRk ++ cxRound 40 cxChoicesRk ++ cxRound 60 cxChoicesRk ++
    [⟨81, [GEvent.mouseEv 240 45 []]⟩]

def cxFinal : GameState :=
  ((initGame (List.replicate 52 51) cxChoicesR1).bind
    (fun s0 => applyTrace s0 cxTrace)).getD (constructedState [])

set_option maxHeartbeats 4000000 in
unseal Rat.add Rat.sub Rat.mul Rat.inv in
/-- Counterexample to C9 as stated: the state reached by `cxTrace` from the
start of the game has computer balance −20, and it is not inside the
double-or-nothing recovery (which only runs when the HUMAN cannot afford a
call and which resets both balances to 500). -/
theorem computer_balance_goes_negative :
    (initGame (List.replicate 52 51) cxChoicesR1).bind
        (fun s0 => applyTrace s0 cxTrace) = some cxFinal ∧
      cxFinal.computerMoney < 0 :=
  ⟨by decide, by decide⟩

/-! ## Permutation analysis of the evaluator (claims C6 and C7)

The category tests are not order-independent in general (the flush scan's
reference letter comes from the first card, and "Six"/"Seven" contribute a
spurious capital 'S'), and the straight test can die with an `IndexError`.
On 7-card hands of real cards that contain no Six and no Seven and on which
no 5-card subset crashes the straight test, however, every category test
depends only on the multiset of its five cards, and the windowed rotation
enumeration covers exactly the 21 five-card combinations.  This section
proves those facts and derives the amended C6 and C7. -/

lemma realize_mem_isSome {l : List Card} {x : PCard} (hx : x ∈ realize l) :
    x.isSome := by
  rcases List.mem_map.1 hx with ⟨c, -, rfl⟩
  rfl

/-- No card of rank Six or Seven (aList values 4 and 5), the two rank words
whose capital 'S' perturbs the flush scan. -/
def no67 (tc : List Card) : Prop :=
  ∀ c ∈ tc, c.rank.val ≠ 4 ∧ c.rank.val ≠ 5

/-! ### The straight test at rank level -/

def insertNat (k : Nat) : List Nat → List Nat
  | [] => [k]
  | b :: l => if b ≤ k then b :: insertNat k l else k :: b :: l

def sortNat (l : List Nat) : List Nat :=
  l.foldl (fun acc k => insertNat k acc) []

def straightAuxR : List Nat → Nat → Option Bool
  | [], _ => some true
  | c :: r, k =>
    if 13 ≤ k then none
    else if c = k then straightAuxR r (k + 1) else some false

/-- `isStraightM` seen through the rank values only (legitimate on lists of
real cards, where the rank word determines and is determined by `rankVal`). -/
def isStraightR (rs : List Nat) : Option Bool :=
  if 5 ≤ rs.length then
    let t := sortNat rs
    let t2 := if t.getD 4 0 = 12 ∧ t.getD 0 0 = 0 then t.eraseIdx 4 else t
    straightAuxR t2.tail (t2.headD 0 + 1)
  else none

lemma map_insertByVal (c : PCard) (x : List PCard) :
    (insertByVal c x).map rankVal = insertNat (rankVal c) (x.map rankVal) := by
  induction x with
  | nil => rfl
  | cons b l ih =>
    by_cases h : rankVal b ≤ rankVal c
    · simp [insertByVal, insertNat, h, ih]
    · simp [insertByVal, insertNat, h]

lemma map_sortByVal (u : List PCard) :
    (sortByVal u).map rankVal = sortNat (u.map rankVal) := by
  suffices h : ∀ acc,
      ((u.foldl (fun a c => insertByVal c a) acc).map rankVal) =
        (u.map rankVal).foldl (fun a k => insertNat k a) (acc.map rankVal) by
    exact h []
  induction u with
  | nil => intro acc; rfl
  | cons c r ih =>
    intro acc
    simp only [List.foldl_cons, List.map_cons]
    rw [ih, map_insertByVal]

lemma insertByVal_perm (c : PCard) (x : List PCard) :
    (insertByVal c x).Perm (c :: x) := by
  induction x with
  | nil => rfl
  | cons b l ih =>
    by_cases h : rankVal b ≤ rankVal c
    · simp only [insertByVal, if_pos h]
      exact (ih.cons b).trans (List.Perm.swap c b l)
    · simp [insertByVal, if_neg h]

lemma sortByVal_perm (u : List PCard) : (sortByVal u).Perm u := by
  suffices h : ∀ acc, ((u.foldl (fun a c => insertByVal c a) acc)).Perm (u ++ acc) by
    simpa using h []
  induction u with
  | nil => intro acc; simp
  | cons c r ih =>
    intro acc
    simp only [List.foldl_cons, List.cons_append]
    refine (ih _).trans ?_
    refine (List.Perm.append_left r (insertByVal_perm c acc)).trans ?_
    exact List.perm_middle

lemma insertNat_perm (k : Nat) (l : List Nat) :
    (insertNat k l).Perm (k :: l) := by
  induction l with
  | nil => rfl
  | cons b t ih =>
    by_cases h : b ≤ k
    · simp only [insertNat, if_pos h]
      exact (ih.cons b).trans (List.Perm.swap k b t)
    · simp [insertNat, if_neg h]

lemma sortNat_perm (l : List Nat) : (sortNat l).Perm l := by
  suffices h : ∀ acc, ((l.foldl (fun a k => insertNat k a) acc)).Perm (l ++ acc) by
    simpa using h []
  induction l with
  | nil => intro acc; simp
  | cons c r ih =>
    intro acc
    simp only [List.foldl_cons, List.cons_append]
    refine (ih _).trans ?_
    refine (List.Perm.append_left r (insertNat_perm c acc)).trans ?_
    exact List.perm_middle

lemma insertNat_sorted {k : Nat} {l : List Nat} (h : l.Sorted (· ≤ ·)) :
    (insertNat k l).Sorted (· ≤ ·) := by
  induction l with
  | nil => simp [insertNat]
  | cons b t ih =>
    rw [List.sorted_cons] at h
    by_cases hb : b ≤ k
    · rw [insertNat, if_pos hb, List.sorted_cons]
      refine ⟨?_, ih h.2⟩
      intro x hx
      rcases List.mem_cons.1 ((insertNat_perm k t).mem_iff.1 hx) with hx | hx
      · rw [hx]; exact hb
      · exact h.1 x hx
    · rw [insertNat, if_neg hb, List.sorted_cons]
      refine ⟨?_, List.sorted_cons.2 h⟩
      intro x hx
      rcases List.mem_cons.1 hx with hx | hx
      · rw [hx]; omega
      · exact le_trans (by omega) (h.1 x hx)

lemma sortNat_sorted (l : List Nat) : (sortNat l).Sorted (· ≤ ·) := by
  suffices h : ∀ acc : List Nat, acc.Sorted (· ≤ ·) →
      (l.foldl (fun a k => insertNat k a) acc).Sorted (· ≤ ·) by
    exact h [] (by simp)
  induction l with
  | nil => intro acc ha; exact ha
  | cons c r ih =>
    intro acc ha
    exact ih _ (insertNat_sorted ha)

lemma sortNat_eq_of_perm {l l' : List Nat} (h : l.Perm l') :
    sortNat l = sortNat l' :=
  List.eq_of_perm_of_sorted
    ((sortNat_perm l).trans (h.trans (sortNat_perm l').symm))
    (sortNat_sorted l) (sortNat_sorted l')

lemma rankVal_getD_map (u : List PCard) (i : Nat) :
    (u.map rankVal).getD i 0 = rankVal (u.getD i none) := by
  induction u generalizing i with
  | nil => cases i <;> rfl
  | cons c r ih =>
    cases i with
    | zero => rfl
    | succ j => simpa using ih j

lemma rankVal_headD_map (u : List PCard) :
    (u.map rankVal).headD 0 = rankVal (u.headD none) := by
  cases u <;> rfl

lemma map_eraseIdx_rank : ∀ (u : List PCard) (n : Nat),
    (u.eraseIdx n).map rankVal = (u.map rankVal).eraseIdx n
  | [], _ => rfl
  | _ :: _, 0 => rfl
  | c :: r, n + 1 => by
    simp only [List.eraseIdx_cons_succ, List.map_cons]
    rw [map_eraseIdx_rank r n]

lemma map_tail_rank (u : List PCard) : u.tail.map rankVal = (u.map rankVal).tail := by
  cases u <;> rfl

lemma wordMatches_of_isSome {x : PCard} (hx : x.isSome) (k : Nat) :
    wordMatches x k = decide (rankVal x = k) := by
  cases x with
  | none => exact absurd hx (by simp)
  | some c => rfl

lemma straightAux_real : ∀ {u : List PCard}, (∀ x ∈ u, x.isSome) → ∀ (k : Nat),
    straightAux u k = straightAuxR (u.map rankVal) k
  | [], _, _ => rfl
  | c :: r, hreal, k => by
    rw [straightAux, List.map_cons, straightAuxR,
      wordMatches_of_isSome (hreal c (List.mem_cons_self c r)) k]
    by_cases h13 : 13 ≤ k
    · rw [if_pos h13, if_pos h13]
    · rw [if_neg h13, if_neg h13]
      by_cases hm : rankVal c = k
      · rw [if_pos (by simpa using hm), if_pos hm]
        exact straightAux_real (fun x hx => hreal x (List.mem_cons_of_mem c hx)) (k + 1)
      · rw [if_neg (by simpa using hm), if_neg hm]

lemma getD_isSome {u : List PCard} (hreal : ∀ x ∈ u, x.isSome) {i : Nat}
    (hi : i < u.length) : (u.getD i none).isSome := by
  rw [List.getD_eq_getElem u none hi]
  exact hreal _ (List.getElem_mem hi)

lemma isStraightM_real {u : List PCard} (hreal : ∀ x ∈ u, x.isSome) :
    isStraightM u = isStraightR (u.map rankVal) := by
  unfold isStraightM isStraightR
  rw [List.length_map]
  by_cases hlen : 5 ≤ u.length
  · rw [if_pos hlen, if_pos hlen]
    dsimp only
    have hsp := sortByVal_perm u
    have hrealS : ∀ x ∈ sortByVal u, x.isSome := fun x hx => hreal x (hsp.subset hx)
    have hlenS : (sortByVal u).length = u.length := hsp.length_eq
    have hmapS : (sortByVal u).map rankVal = sortNat (u.map rankVal) := map_sortByVal u
    have h4 : (4 : Nat) < (sortByVal u).length := by omega
    have h0 : (0 : Nat) < (sortByVal u).length := by omega
    have hw4 : (wordMatches ((sortByVal u).getD 4 none) 12 = true) ↔
        ((sortNat (u.map rankVal)).getD 4 0 = 12) := by
      rw [wordMatches_of_isSome (getD_isSome hrealS h4) 12, ← hmapS,
        rankVal_getD_map]
      simp
    have hw0 : (wordMatches ((sortByVal u).getD 0 none) 0 = true) ↔
        ((sortNat (u.map rankVal)).getD 0 0 = 0) := by
      rw [wordMatches_of_isSome (getD_isSome hrealS h0) 0, ← hmapS,
        rankVal_getD_map]
      simp
    by_cases hwheel : (sortNat (u.map rankVal)).getD 4 0 = 12 ∧
        (sortNat (u.map rankVal)).getD 0 0 = 0
    · rw [if_pos ⟨hw4.2 hwheel.1, hw0.2 hwheel.2⟩, if_pos hwheel]
      have hrealE : ∀ x ∈ ((sortByVal u).eraseIdx 4).tail, x.isSome := fun x hx =>
        hrealS x ((List.eraseIdx_sublist _ 4).subset (List.mem_of_mem_tail hx))
      rw [straightAux_real hrealE, map_tail_rank, map_eraseIdx_rank, hmapS]
      have hh : rankVal (((sortByVal u).eraseIdx 4).headD none) =
          ((sortNat (u.map rankVal)).eraseIdx 4).headD 0 := by
        rw [← rankVal_headD_map, map_eraseIdx_rank, hmapS]
      rw [hh]
    · rw [if_neg (fun hc => hwheel ⟨hw4.1 hc.1, hw0.1 hc.2⟩), if_neg hwheel]
      have hrealT : ∀ x ∈ (sortByVal u).tail, x.isSome := fun x hx =>
        hrealS x (List.mem_of_mem_tail hx)
      rw [straightAux_real hrealT, map_tail_rank, hmapS]
      have hh : rankVal ((sortByVal u).headD none) =
          (sortNat (u.map rankVal)).headD 0 := by
        rw [← rankVal_headD_map, hmapS]
      rw [hh]
  · rw [if_neg hlen, if_neg hlen]

lemma isStraightR_perm {rs rs' : List Nat} (h : rs.Perm rs') :
    isStraightR rs = isStraightR rs' := by
  unfold isStraightR
  rw [sortNat_eq_of_perm h, h.length_eq]

lemma isStraightM_perm {tc tc' : List Card} (hp : tc.Perm tc') :
    isStraightM (realize tc) = isStraightM (realize tc') := by
  rw [isStraightM_real (fun x hx => realize_mem_isSome hx),
    isStraightM_real (fun x hx => realize_mem_isSome hx)]
  exact isStraightR_perm ((hp.map some).map rankVal)

/-! ### Flush, royal and count tests are multiset functions on no-6/7 hands -/

/-- Pairwise same-suit, a manifestly order-independent reading of the flush. -/
def sameSuitB (tc : List Card) : Bool :=
  tc.all (fun c => tc.all (fun d => c.suit = d.suit))

lemma capList_no67 {c : Card} (h4 : c.rank.val ≠ 4) (h5 : c.rank.val ≠ 5) :
    capList (some c) = [c.suit] := by
  simp [capList, h4, h5]

lemma isFlushB_real_no67 {tc : List Card} (h67 : no67 tc) :
    isFlushB (realize tc) = sameSuitB tc := by
  cases tc with
  | nil => rfl
  | cons c0 rest =>
    rw [Bool.eq_iff_iff]
    have hcap0 := capList_no67 (h67 c0 (List.mem_cons_self c0 rest)).1
      (h67 c0 (List.mem_cons_self c0 rest)).2
    simp only [realize, List.map_cons, isFlushB, hcap0, List.head?_cons,
      sameSuitB, List.all_eq_true, List.mem_cons, Option.some.injEq,
      decide_eq_true_eq]
    constructor
    · intro H c hc d hd
      have key : ∀ e, e = c0 ∨ e ∈ rest → e.suit = c0.suit := by
        intro e he
        rcases he with rfl | he
        · rfl
        · have hcape := capList_no67 (h67 e (List.mem_cons_of_mem c0 he)).1
            (h67 e (List.mem_cons_of_mem c0 he)).2
          have h := H (some e) (List.mem_map_of_mem some he)
          rw [hcape] at h
          simpa using h
      rw [key c hc, key d hd]
    · intro H c hc
      rcases List.mem_map.1 hc with ⟨e, he, rfl⟩
      have hcape := capList_no67 (h67 e (List.mem_cons_of_mem c0 he)).1
        (h67 e (List.mem_cons_of_mem c0 he)).2
      rw [hcape]
      have h := H e (Or.inr he) c0 (Or.inl rfl)
      simpa using h

lemma sameSuitB_perm {tc tc' : List Card} (hp : tc.Perm tc') :
    sameSuitB tc = sameSuitB tc' := by
  rw [Bool.eq_iff_iff]
  simp only [sameSuitB, List.all_eq_true]
  constructor
  · intro H c hc d hd
    exact H c (hp.symm.subset hc) d (hp.symm.subset hd)
  · intro H c hc d hd
    exact H c (hp.subset hc) d (hp.subset hd)

lemma markOne_congr {c d : PCard} (h : wordMatches c = wordMatches d) :
    ∀ nd, markOne c nd = markOne d nd := by
  intro nd
  induction nd with
  | nil => rfl
  | cons x r ih =>
    cases x with
    | none => simp [markOne, ih]
    | some k => simp [markOne, h, ih]

lemma wordMatches_same_rank {c d : PCard} {k : Nat}
    (hc : wordMatches c k = true) (hd : wordMatches d k = true) :
    wordMatches c = wordMatches d := by
  funext j
  cases c with
  | none => exact absurd hc (by simp [wordMatches])
  | some cc =>
    cases d with
    | none => exact absurd hd (by simp [wordMatches])
    | some dd =>
      simp only [wordMatches, decide_eq_true_eq] at hc hd
      simp [wordMatches, hc, hd]

lemma markOne_comm (c d : PCard) : ∀ nd : List (Option Nat),
    markOne d (markOne c nd) = markOne c (markOne d nd) := by
  intro nd
  induction nd with
  | nil => rfl
  | cons x r ih =>
    cases x with
    | none => simp [markOne, ih]
    | some k =>
      by_cases hc : wordMatches c k = true <;> by_cases hd : wordMatches d k = true
      · simp only [markOne, hc, hd, if_pos]
        exact congrArg (List.cons none) (markOne_congr (wordMatches_same_rank hd hc) r)
      · simp [markOne, hc, hd]
      · simp [markOne, hc, hd]
      · simp [markOne, hc, hd, ih]

lemma markFold_perm {u u' : List PCard} (hp : u.Perm u') :
    ∀ nd : List (Option Nat),
      u.foldl (fun n c => markOne c n) nd = u'.foldl (fun n c => markOne c n) nd := by
  induction hp with
  | nil => intro nd; rfl
  | cons x h ih => intro nd; simp only [List.foldl_cons]; exact ih _
  | swap x y l =>
    intro nd
    simp only [List.foldl_cons]
    rw [markOne_comm]
  | trans h1 h2 ih1 ih2 => intro nd; rw [ih1, ih2]

lemma countOcc_perm {u u' : List PCard} (hp : u.Perm u') (k : Nat) :
    countOcc u k = countOcc u' k :=
  hp.countP_eq _

/-- The category test at each index is a multiset function of its input, on
lists of real cards with no Six and no Seven. -/
lemma predAt_perm_real {i : Nat} {tc tc' : List Card} (hp : tc.Perm tc')
    (h67 : no67 tc) : predAt i (realize tc) = predAt i (realize tc') := by
  have hr : (realize tc).Perm (realize tc') := hp.map some
  have h67' : no67 tc' := fun c hc => h67 c (hp.symm.subset hc)
  have hflush : isFlushB (realize tc) = isFlushB (realize tc') := by
    rw [isFlushB_real_no67 h67, isFlushB_real_no67 h67', sameSuitB_perm hp]
  have hstraight := isStraightM_perm hp
  have hcount : ∀ k, countOcc (realize tc) k = countOcc (realize tc') k :=
    fun k => hr.countP_eq _
  match i with
  | 0 =>
    show some _ = some _
    congr 1
    unfold isRoyalFlushB
    rw [hflush, markFold_perm hr]
  | 1 =>
    show isStraightFlushM (realize tc) = isStraightFlushM (realize tc')
    unfold isStraightFlushM
    rw [hflush, hstraight]
  | 2 =>
    show some _ = some _
    congr 1
    simp only [isXofAKindB, hcount]
  | 3 =>
    show some _ = some _
    congr 1
    simp only [isXofAKindB, hcount]
  | 4 =>
    show some (isFlushB (realize tc)) = some (isFlushB (realize tc'))
    rw [hflush]
  | 5 => exact hstraight
  | 6 =>
    show some _ = some _
    congr 1
    simp only [isXofAKindB, hcount]
  | 7 =>
    show some _ = some _
    congr 1
    simp only [isTwoPairsB, hcount]
  | 8 =>
    show some _ = some _
    congr 1
    simp only [isXofAKindB, hcount]
  | n + 9 => rfl

/-- The only category tests that can raise are the two straight tests. -/
lemma predAt_none_straight {i : Nat} {t : List PCard}
    (h : predAt i t = none) : isStraightM t = none := by
  match i with
  | 0 => exact Option.noConfusion h
  | 1 =>
    have h' : isStraightFlushM t = none := h
    unfold isStraightFlushM at h'
    split at h'
    · exact h'
    · exact Option.noConfusion h'
  | 2 => exact Option.noConfusion h
  | 3 => exact Option.noConfusion h
  | 4 => exact Option.noConfusion h
  | 5 => exact h
  | 6 => exact Option.noConfusion h
  | 7 => exact Option.noConfusion h
  | 8 => exact Option.noConfusion h
  | n + 9 => exact Option.noConfusion h

/-! ### Coverage: the 42 windowed tests are the 21 five-card subsets up to
permutation -/

lemma rotWindows_map {α β : Type} (f : α → β) (l : List α) (w : Nat) :
    rotWindows (l.map f) w = (rotWindows l w).map (List.map f) := by
  unfold rotWindows pySlice
  simp only [List.length_map, List.map_map]
  congr 1
  funext j
  simp only [Function.comp_apply]
  by_cases hc : l.length + 1 ≤ j + w
  · simp [hc, List.map_drop, List.map_take]
  · simp [hc, List.map_drop, List.map_take]

lemma flatMap_rot_map {α β : Type} (f : α → β) :
    ∀ ws : List (List α),
      (ws.map (List.map f)).flatMap (fun w => rotWindows w 5) =
        (ws.flatMap (fun w => rotWindows w 5)).map (List.map f)
  | [] => rfl
  | w :: ws => by
    simp only [List.map_cons, List.flatMap_cons, List.map_append,
      flatMap_rot_map f ws, rotWindows_map]

lemma testedLists_map {α β : Type} (f : α → β) (l : List α) :
    testedLists (l.map f) = (testedLists l).map (List.map f) := by
  unfold testedLists
  rw [rotWindows_map, flatMap_rot_map]

lemma map_comp_cons {α β : Type} (f : α → β) (a : α) (s : List (List α)) :
    (s.map (List.map f)).map (List.cons (f a)) =
      (s.map (List.cons a)).map (List.map f) := by
  induction s with
  | nil => rfl
  | cons t s ih => simp [ih]

lemma sublistsLen_map' {α β : Type} (f : α → β) :
    ∀ (l : List α) (n : Nat),
      (l.map f).sublistsLen n = (l.sublistsLen n).map (List.map f)
  | _, 0 => by simp
  | [], _ + 1 => by simp
  | a :: l, n + 1 => by
    rw [List.map_cons, List.sublistsLen_succ_cons, List.sublistsLen_succ_cons,
      List.map_append, sublistsLen_map' f l (n + 1), sublistsLen_map' f l n,
      map_comp_cons]

/-- The seven card positions. -/
def idx7 : List (Fin 7) := [0, 1, 2, 3, 4, 5, 6]

lemma cov1 : ∀ t ∈ testedLists idx7, ∃ s ∈ idx7.sublistsLen 5, t.Perm s := by
  decide

lemma cov2 : ∀ s ∈ idx7.sublistsLen 5, ∃ t ∈ testedLists idx7, s.Perm t := by
  decide

lemma len7_explicit {α : Type} {l : List α} (hl : l.length = 7) :
    ∃ a b c d e f g : α, l = [a, b, c, d, e, f, g] := by
  rcases l with _ | ⟨a, l⟩
  · simp only [List.length_nil] at hl; omega
  rcases l with _ | ⟨b, l⟩
  · simp only [List.length_cons, List.length_nil] at hl; omega
  rcases l with _ | ⟨c, l⟩
  · simp only [List.length_cons, List.length_nil] at hl; omega
  rcases l with _ | ⟨d, l⟩
  · simp only [List.length_cons, List.length_nil] at hl; omega
  rcases l with _ | ⟨e, l⟩
  · simp only [List.length_cons, List.length_nil] at hl; omega
  rcases l with _ | ⟨f, l⟩
  · simp only [List.length_cons, List.length_nil] at hl; omega
  rcases l with _ | ⟨g, l⟩
  · simp only [List.length_cons, List.length_nil] at hl; omega
  rcases l with _ | ⟨x, l⟩
  · exact ⟨a, b, c, d, e, f, g, rfl⟩
  · simp only [List.length_cons] at hl; omega

/-- Reading a length-7 list as a function of positions. -/
def pk7 {α : Type} (a b c d e f g : α) : Fin 7 → α :=
  fun i => [a, b, c, d, e, f, g].getD i.val a

lemma tested_cov {l : List Card} (hl : l.length = 7) :
    (∀ t ∈ testedLists l, ∃ s ∈ l.sublistsLen 5, t.Perm s) ∧
      (∀ s ∈ l.sublistsLen 5, ∃ t ∈ testedLists l, s.Perm t) := by
  obtain ⟨a, b, c, d, e, f, g, rfl⟩ := len7_explicit hl
  have hmap : idx7.map (pk7 a b c d e f g) = [a, b, c, d, e, f, g] := rfl
  have htl : testedLists [a, b, c, d, e, f, g] =
      (testedLists idx7).map (List.map (pk7 a b c d e f g)) :=
    (congrArg testedLists hmap.symm).trans (testedLists_map (pk7 a b c d e f g) idx7)
  have hsl : List.sublistsLen 5 [a, b, c, d, e, f, g] =
      (idx7.sublistsLen 5).map (List.map (pk7 a b c d e f g)) :=
    (congrArg (List.sublistsLen 5) hmap.symm).trans
      (sublistsLen_map' (pk7 a b c d e f g) idx7 5)
  refine ⟨?_, ?_⟩
  · intro t ht
    rw [htl] at ht
    rcases List.mem_map.1 ht with ⟨t0, ht0, rfl⟩
    rcases cov1 t0 ht0 with ⟨s0, hs0, hperm⟩
    refine ⟨s0.map (pk7 a b c d e f g), ?_, hperm.map _⟩
    rw [hsl]
    exact List.mem_map_of_mem _ hs0
  · intro s hs
    rw [hsl] at hs
    rcases List.mem_map.1 hs with ⟨s0, hs0, rfl⟩
    rcases cov2 s0 hs0 with ⟨t0, ht0, hperm⟩
    refine ⟨t0.map (pk7 a b c d e f g), ?_, hperm.map _⟩
    rw [htl]
    exact List.mem_map_of_mem _ ht0

/-- No five-card subset of the hand makes `isStraight` raise an
`IndexError` (every hand whose thirteen ranks are pairwise distinct
qualifies). -/
def straightSafe (l : List Card) : Prop :=
  ∀ t ∈ l.sublistsLen 5, isStraightM (realize t) ≠ none

instance straightSafe.dec (l : List Card) : Decidable (straightSafe l) :=
  List.decidableBAll _ (l.sublistsLen 5)

lemma scanCat_eq_any (i : Nat) :
    ∀ ts : List (List PCard), (∀ t ∈ ts, predAt i t ≠ none) →
      scanCat i ts = some (ts.any (fun t => decide (predAt i t = some true)))
  | [], _ => rfl
  | t :: r, h => by
    have ht := h t (List.mem_cons_self t r)
    cases hpt : predAt i t with
    | none => exact absurd hpt ht
    | some b =>
      cases b with
      | true => simp [scanCat, hpt]
      | false =>
        simp [scanCat, hpt,
          scanCat_eq_any i r (fun x hx => h x (List.mem_cons_of_mem t hx))]

lemma catLoop_congr {ts₁ ts₂ : List (List PCard)} :
    ∀ idxs : List Nat, (∀ i ∈ idxs, scanCat i ts₁ = scanCat i ts₂) →
      catLoop ts₁ idxs = catLoop ts₂ idxs
  | [], _ => rfl
  | i :: rest, h => by
    have hi := h i (List.mem_cons_self i rest)
    unfold catLoop
    rw [hi]
    cases scanCat i ts₂ with
    | none => rfl
    | some b =>
      cases b with
      | true => rfl
      | false => exact catLoop_congr rest (fun j hj => h j (List.mem_cons_of_mem i hj))

lemma scanCat_tested_eq {l : List Card} (hl : l.length = 7) (h67 : no67 l)
    (hs : straightSafe l) (i : Nat) :
    scanCat i ((testedLists l).map realize) =
      scanCat i ((l.sublistsLen 5).map realize) := by
  obtain ⟨hcov1, hcov2⟩ := tested_cov hl
  have hsubelem : ∀ s ∈ l.sublistsLen 5, ∀ c ∈ s, c ∈ l := by
    intro s hsmem c hc
    exact (List.mem_sublistsLen.1 hsmem).1.subset hc
  have hsafe_sub : ∀ s ∈ l.sublistsLen 5, predAt i (realize s) ≠ none := by
    intro s hsmem hnone
    exact hs s hsmem (predAt_none_straight hnone)
  have hsafe_tested : ∀ t ∈ testedLists l, predAt i (realize t) ≠ none := by
    intro t htmem hnone
    rcases hcov1 t htmem with ⟨s, hsmem, hperm⟩
    have hcr : isStraightM (realize s) = none := by
      rw [← isStraightM_perm hperm]
      exact predAt_none_straight hnone
    exact hs s hsmem hcr
  have h1 : ∀ u ∈ (testedLists l).map realize, predAt i u ≠ none := by
    intro u hu
    rcases List.mem_map.1 hu with ⟨t, ht, rfl⟩
    exact hsafe_tested t ht
  have h2 : ∀ u ∈ (l.sublistsLen 5).map realize, predAt i u ≠ none := by
    intro u hu
    rcases List.mem_map.1 hu with ⟨s, hsm, rfl⟩
    exact hsafe_sub s hsm
  rw [scanCat_eq_any i _ h1, scanCat_eq_any i _ h2]
  congr 1
  rw [Bool.eq_iff_iff]
  simp only [List.any_eq_true, List.mem_map, decide_eq_true_eq]
  constructor
  · rintro ⟨u, ⟨t, ht, rfl⟩, hp⟩
    rcases hcov1 t ht with ⟨s, hsmem, hperm⟩
    refine ⟨realize s, ⟨s, hsmem, rfl⟩, ?_⟩
    have h67t : no67 t := fun c hc => h67 c (hsubelem _ hsmem c (hperm.subset hc))
    rw [← predAt_perm_real hperm h67t]
    exact hp
  · rintro ⟨u, ⟨s, hsmem, rfl⟩, hp⟩
    rcases hcov2 s hsmem with ⟨t, htmem, hperm⟩
    refine ⟨realize t, ⟨t, htmem, rfl⟩, ?_⟩
    have h67s : no67 s := fun c hc => h67 c (hsubelem _ hsmem c hc)
    rw [← predAt_perm_real hperm h67s]
    exact hp

/-- Under the three safety conditions the windowed evaluator agrees with the
subset-enumeration reference. -/
lemma evalHand_eq_specComb {l : List Card} (hl : l.length = 7) (h67 : no67 l)
    (hs : straightSafe l) : evalHand l = specCombEval (realize l) := by
  unfold evalHand specCombEval checkHandCards
  have ht : testedLists (realize l) = (testedLists l).map realize :=
    testedLists_map some l
  have hsub : (realize l).sublistsLen 5 = (l.sublistsLen 5).map realize :=
    sublistsLen_map' some l 5
  rw [ht, hsub,
    catLoop_congr (List.range 9) (fun i _ => scanCat_tested_eq hl h67 hs i)]

instance no67.dec (l : List Card) : Decidable (no67 l) :=
  List.decidableBAll _ l

lemma straightSafe_perm {l₁ l₂ : List Card} (hp : l₁.Perm l₂)
    (hs : straightSafe l₁) : straightSafe l₂ := by
  intro s hsm
  have hsub := List.mem_sublistsLen.1 hsm
  rcases hsub.1.subperm.trans hp.symm.subperm with ⟨s', hs'p, hs'sub⟩
  have hmem : s' ∈ l₁.sublistsLen 5 :=
    List.mem_sublistsLen.2 ⟨hs'sub, by rw [hs'p.length_eq, hsub.2]⟩
  rw [← isStraightM_perm hs'p]
  exact hs s' hmem

lemma scanCat_sub_perm {l₁ l₂ : List Card} (hp : l₁.Perm l₂) (h67 : no67 l₁)
    (hs₁ : straightSafe l₁) (hs₂ : straightSafe l₂) (i : Nat) :
    scanCat i ((l₁.sublistsLen 5).map realize) =
      scanCat i ((l₂.sublistsLen 5).map realize) := by
  have h67₂ : no67 l₂ := fun c hc => h67 c (hp.symm.subset hc)
  have h1 : ∀ u ∈ (l₁.sublistsLen 5).map realize, predAt i u ≠ none := by
    intro u hu
    rcases List.mem_map.1 hu with ⟨s, hsm, rfl⟩
    exact fun hnone => hs₁ s hsm (predAt_none_straight hnone)
  have h2 : ∀ u ∈ (l₂.sublistsLen 5).map realize, predAt i u ≠ none := by
    intro u hu
    rcases List.mem_map.1 hu with ⟨s, hsm, rfl⟩
    exact fun hnone => hs₂ s hsm (predAt_none_straight hnone)
  rw [scanCat_eq_any i _ h1, scanCat_eq_any i _ h2]
  congr 1
  rw [Bool.eq_iff_iff]
  simp only [List.any_eq_true, List.mem_map, decide_eq_true_eq]
  constructor
  · rintro ⟨u, ⟨s, hsm, rfl⟩, hq⟩
    have hsub := List.mem_sublistsLen.1 hsm
    rcases hsub.1.subperm.trans hp.subperm with ⟨s', hs'p, hs'sub⟩
    have hmem : s' ∈ l₂.sublistsLen 5 :=
      List.mem_sublistsLen.2 ⟨hs'sub, by rw [hs'p.length_eq, hsub.2]⟩
    refine ⟨realize s', ⟨s', hmem, rfl⟩, ?_⟩
    have h67s : no67 s := fun c hc => h67 c (hsub.1.subset hc)
    rw [← predAt_perm_real hs'p.symm h67s]
    exact hq
  · rintro ⟨u, ⟨s, hsm, rfl⟩, hq⟩
    have hsub := List.mem_sublistsLen.1 hsm
    rcases hsub.1.subperm.trans hp.symm.subperm with ⟨s', hs'p, hs'sub⟩
    have hmem : s' ∈ l₁.sublistsLen 5 :=
      List.mem_sublistsLen.2 ⟨hs'sub, by rw [hs'p.length_eq, hsub.2]⟩
    refine ⟨realize s', ⟨s', hmem, rfl⟩, ?_⟩
    have h67s : no67 s := fun c hc => h67₂ c (hsub.1.subset hc)
    rw [← predAt_perm_real hs'p.symm h67s]
    exact hq

lemma getHighCard_perm {u v : List PCard} (hp : u.Perm v) :
    getHighCard u = getHighCard v := by
  unfold getHighCard
  congr 1
  funext k
  rw [Bool.eq_iff_iff]
  simp only [List.any_eq_true]
  constructor
  · rintro ⟨c, hc, hw⟩
    exact ⟨c, hp.subset hc, hw⟩
  · rintro ⟨c, hc, hw⟩
    exact ⟨c, hp.symm.subset hc, hw⟩

lemma specCombEval_perm {l₁ l₂ : List Card} (hp : l₁.Perm l₂)
    (hd : (l₁.drop 5).Perm (l₂.drop 5)) (h67 : no67 l₁)
    (hs₁ : straightSafe l₁) (hs₂ : straightSafe l₂) :
    specCombEval (realize l₁) = specCombEval (realize l₂) := by
  unfold specCombEval
  have e₁ : (realize l₁).sublistsLen 5 = (l₁.sublistsLen 5).map realize :=
    sublistsLen_map' some l₁ 5
  have e₂ : (realize l₂).sublistsLen 5 = (l₂.sublistsLen 5).map realize :=
    sublistsLen_map' some l₂ 5
  have hHigh : getHighCard ((realize l₁).drop 5) =
      getHighCard ((realize l₂).drop 5) := by
    have d₁ : (realize l₁).drop 5 = realize (l₁.drop 5) := by
      simp [realize, List.map_drop]
    have d₂ : (realize l₂).drop 5 = realize (l₂.drop 5) := by
      simp [realize, List.map_drop]
    rw [d₁, d₂]
    exact getHighCard_perm (hd.map some)
  rw [e₁, e₂, hHigh,
    catLoop_congr (List.range 9) (fun i _ => scanCat_sub_perm hp h67 hs₁ hs₂ i)]

/-- C7 (amended): on a 7-card hand with no Six and no Seven (whose rank
words' capital 'S' perturbs the flush scan) and on which no tested 5-card
subset makes `isStraight` raise an `IndexError`, the windowed 6-then-5
rotation enumeration of `checkHand` returns the same result as the
evaluator that explicitly enumerates all 21 five-card combinations of the
7 cards and tests categories from strongest to weakest with first-match
short-circuit. -/
theorem windowed_eq_combinations_no67 (l : List Card) (hl : l.length = 7)
    (h67 : no67 l) (hs : straightSafe l) :
    evalHand l = specCombEval (realize l) :=
  evalHand_eq_specComb hl h67 hs

/-- Witness for C7 (amended) at the concrete no-Six/no-Seven hand
{2♣, 3♦, 4♥, 5♠, T♣, J♦, K♥}. -/
theorem windowed_eq_combinations_no67_witness :
    ([⟨0, 0⟩, ⟨1, 1⟩, ⟨2, 2⟩, ⟨3, 3⟩, ⟨8, 0⟩, ⟨9, 1⟩, ⟨11, 2⟩] : List Card).length = 7 ∧
      no67 [⟨0, 0⟩, ⟨1, 1⟩, ⟨2, 2⟩, ⟨3, 3⟩, ⟨8, 0⟩, ⟨9, 1⟩, ⟨11, 2⟩] ∧
      straightSafe [⟨0, 0⟩, ⟨1, 1⟩, ⟨2, 2⟩, ⟨3, 3⟩, ⟨8, 0⟩, ⟨9, 1⟩, ⟨11, 2⟩] ∧
      evalHand [⟨0, 0⟩, ⟨1, 1⟩, ⟨2, 2⟩, ⟨3, 3⟩, ⟨8, 0⟩, ⟨9, 1⟩, ⟨11, 2⟩] =
        specCombEval
          (realize [⟨0, 0⟩, ⟨1, 1⟩, ⟨2, 2⟩, ⟨3, 3⟩, ⟨8, 0⟩, ⟨9, 1⟩, ⟨11, 2⟩]) :=
  ⟨by decide, by decide, by decide,
    windowed_eq_combinations_no67 _ (by decide) (by decide) (by decide)⟩

/-- C6 (amended): on 7-card hands with no Six and no Seven and no 5-card
subset making `isStraight` raise, the evaluation is invariant under those
reorderings of the 7 input cards that permute the two cards in positions
5-6 (the hole-card slots read by the high-card fallback) among themselves. -/
theorem evalHand_perm_invariant (l₁ l₂ : List Card) (hl : l₁.length = 7)
    (hp : l₁.Perm l₂) (hd : (l₁.drop 5).Perm (l₂.drop 5)) (h67 : no67 l₁)
    (hs : straightSafe l₁) : evalHand l₁ = evalHand l₂ := by
  have hl₂ : l₂.length = 7 := by rw [← hp.length_eq, hl]
  have h67₂ : no67 l₂ := fun c hc => h67 c (hp.symm.subset hc)
  have hs₂ : straightSafe l₂ := straightSafe_perm hp hs
  rw [evalHand_eq_specComb hl h67 hs, evalHand_eq_specComb hl₂ h67₂ hs₂]
  exact specCombEval_perm hp hd h67 hs hs₂

/-- Witness for C6 (amended): board 2♣ 4♦ T♥ J♠ K♣ with holes 3♦ 5♥, versus
the board reversed and the two holes swapped. -/
theorem evalHand_perm_invariant_witness :
    ([⟨0, 0⟩, ⟨2, 1⟩, ⟨8, 2⟩, ⟨9, 3⟩, ⟨11, 0⟩, ⟨1, 1⟩, ⟨3, 2⟩] : List Card).length = 7 ∧
      ([⟨0, 0⟩, ⟨2, 1⟩, ⟨8, 2⟩, ⟨9, 3⟩, ⟨11, 0⟩, ⟨1, 1⟩, ⟨3, 2⟩] : List Card).Perm
        [⟨11, 0⟩, ⟨9, 3⟩, ⟨8, 2⟩, ⟨2, 1⟩, ⟨0, 0⟩, ⟨3, 2⟩, ⟨1, 1⟩] ∧
      (([⟨0, 0⟩, ⟨2, 1⟩, ⟨8, 2⟩, ⟨9, 3⟩, ⟨11, 0⟩, ⟨1, 1⟩, ⟨3, 2⟩] : List Card).drop 5).Perm
        (([⟨11, 0⟩, ⟨9, 3⟩, ⟨8, 2⟩, ⟨2, 1⟩, ⟨0, 0⟩, ⟨3, 2⟩, ⟨1, 1⟩] : List Card).drop 5) ∧
      no67 [⟨0, 0⟩, ⟨2, 1⟩, ⟨8, 2⟩, ⟨9, 3⟩, ⟨11, 0⟩, ⟨1, 1⟩, ⟨3, 2⟩] ∧
      straightSafe [⟨0, 0⟩, ⟨2, 1⟩, ⟨8, 2⟩, ⟨9, 3⟩, ⟨11, 0⟩, ⟨1, 1⟩, ⟨3, 2⟩] ∧
      evalHand [⟨0, 0⟩, ⟨2, 1⟩, ⟨8, 2⟩, ⟨9, 3⟩, ⟨11, 0⟩, ⟨1, 1⟩, ⟨3, 2⟩] =
        evalHand [⟨11, 0⟩, ⟨9, 3⟩, ⟨8, 2⟩, ⟨2, 1⟩, ⟨0, 0⟩, ⟨3, 2⟩, ⟨1, 1⟩] :=
  ⟨by decide, by decide, by decide, by decide, by decide,
    evalHand_perm_invariant _ _ (by decide) (by decide) (by decide) (by decide)
      (by decide)⟩

end Poker
